/-
Verification development for the USB-monitor repository's disk speed-test
engine (`src/src/core/speed_tester.py`, class `SpeedTestThread`).

The engine is embedded shallowly:
  * Qt signal emissions (`progress_update`, `test_finished`, `error_occurred`)
    become elements of a list of `Event`s, in emission order.
  * The mutable cancellation flag `_is_cancelled` is modelled as a monotone
    boolean over "check indices": every read of the flag is numbered in
    program order, and `cancelAt = some n` means the flag is observed true at
    every read with index `≥ n` (the flag is only ever set, never cleared).
    `cancelAt = none` means `cancel()` is never called.
  * Wall-clock durations are rational parameters of the run (the code only
    compares an elapsed time with zero and divides by it).
  * Python `while` loops become fuel-bounded structural recursion; the fuel
    passed by `runThread` provably dominates the iteration count, so the
    loops always exit through their own conditions, never by fuel exhaustion
    (fuel is only needed for iteration counts, each loop makes ≥ 1 byte of
    progress per step or breaks).
  * Fallible OS interactions are fault-injection knobs of the environment:
    temp-file creation failure, a write-call exception, the `dd` subprocess
    timeout, and the success of the privileged `purge` command (which, per
    the source, only changes `print` output, never emitted events).
  * Byte counts are exact naturals; the progress percents
    `int((bytes/size)*50)` are modelled as exact floored division
    `bytes * 50 / size`.
  * Each emitted progress element of a loop trace is annotated with the
    number of bytes the phase had processed when it was emitted.
-/
import Mathlib

namespace SpeedTester

/-- One mebibyte, `1024 * 1024` bytes. -/
def MiB : ℕ := 1024 * 1024

/-- `buffer_size = 4 * 1024 * 1024` from `SpeedTestThread.run` line 44:
the fixed 4 MiB chunk buffer. -/
def bufferSize : ℕ := 4 * MiB

/-- `self.test_size = test_size_mb * 1024 * 1024` from
`SpeedTestThread.__init__`. -/
def testSizeBytes (mb : ℕ) : ℕ := mb * 1024 * 1024

/-- The host platform selected by `platform.system()` in `run`. -/
inductive Platform where
  | windows
  | darwin
  | other
deriving DecidableEq, Repr

/-- An observable emission of the thread: a `progress_update(status, percent)`
signal, the `test_finished` terminal signal (modelled as carrying the two
speeds it formats into its result text), or the `error_occurred` terminal
signal. -/
inductive Event where
  | progress (status : String) (percent : ℕ)
  | finished (writeSpeed readSpeed : ℚ)
  | error (msg : String)
deriving DecidableEq, Repr

/-- Whether an event is one of the two terminal signals. -/
def isTerminalEv : Event → Bool
  | Event.progress _ _ => false
  | Event.finished _ _ => true
  | Event.error _ => true

/-- Whether an event is the `test_finished` signal (a TestResult). -/
def isFinished : Event → Bool
  | Event.finished _ _ => true
  | _ => false

/-- Whether a progress event carries a warning status (the source's warning
statuses all begin with the two characters 警告). -/
def isWarning : Event → Bool
  | Event.progress s _ => decide (s.data.take 2 = ['警', '告'])
  | _ => false

/-- The percents of the progress events of a list, in order. -/
def progressPercents (evs : List Event) : List ℕ :=
  evs.filterMap fun e =>
    match e with
    | Event.progress _ p => some p
    | _ => none

/-- Reading the cancellation flag at check index `i`: true iff `cancel()` was
called early enough that the flag is set by the `i`-th read. -/
def isCancelled (cancelAt : Option ℕ) (i : ℕ) : Bool :=
  match cancelAt with
  | none => false
  | some n => decide (n ≤ i)

/-- The zero-elapsed guard `if t == 0: t = 0.001` used before every speed
division in the source (lines 74, 205, 254-255, 378). -/
def guardTime (t : ℚ) : ℚ := if t = 0 then 1 / 1000 else t

/-- The speed formula `(bytes / 1024 / 1024) / elapsed` with the zero guard,
shared verbatim by the write phase (line 75), the standard read (line 206),
the dd read (line 258) and the Windows read (line 381). -/
def speedOf (bytes : ℕ) (elapsed : ℚ) : ℚ :=
  ((bytes : ℚ) / 1024 / 1024) / guardTime elapsed

/-- The status text of a write-chunk progress event
(`f"写入中... {percent*2}%"`, line 67). -/
def writeStatus (percent : ℕ) : String :=
  "写入中... " ++ toString (percent * 2) ++ "%"

/-- The status text of a read-chunk progress event
(`f"读取中... {(percent-50)*2}%"`, lines 202 and 375). -/
def readStatus (percent : ℕ) : String :=
  "读取中... " ++ toString ((percent - 50) * 2) ++ "%"

/-- Output of one chunked loop: final byte counter, next cancellation-check
index, annotated trace of emitted events (each paired with the byte counter
at emission time), and whether the loop was aborted by an injected write
exception. -/
structure LoopOut where
  bytes : ℕ
  chk : ℕ
  trace : List (ℕ × Event)
  failed : Bool
deriving DecidableEq, Repr

/-- The write loop of `SpeedTestThread.run` (lines 55-67):
`while bytes_written < test_size`, check the cancellation flag, write
`min(remaining, buffer_size)` bytes, and emit a progress event with
`percent = int(bytes_written / test_size * 50)`.  `failAt = some i` injects
an I/O exception at the `i`-th `f.write` call. -/
def writeLoop (fuel ts : ℕ) (cancelAt failAt : Option ℕ) (iter chk bw : ℕ) :
    LoopOut :=
  match fuel with
  | 0 => ⟨bw, chk, [], false⟩
  | fuel + 1 =>
    if bw < ts then
      if isCancelled cancelAt chk then ⟨bw, chk + 1, [], false⟩
      else if failAt = some iter then ⟨bw, chk + 1, [], true⟩
      else
        let len := min (ts - bw) bufferSize
        let bw2 := bw + len
        let percent := bw2 * 50 / ts
        let rest := writeLoop fuel ts cancelAt failAt (iter + 1) (chk + 1) bw2
        ⟨rest.bytes, rest.chk,
          (bw2, Event.progress (writeStatus percent) percent) :: rest.trace,
          rest.failed⟩
    else ⟨bw, chk, [], false⟩

/-- The standard read loop of `SpeedTestThread._read_standard`
(lines 194-202): `while True`, check the cancellation flag, read up to
`buffer_size` bytes (an empty chunk, i.e. end of file, breaks), and emit a
progress event with `percent = 50 + int(bytes_read / test_size * 50)`. -/
def readStandardLoop (fuel ts fileSize : ℕ) (cancelAt : Option ℕ)
    (chk br : ℕ) : LoopOut :=
  match fuel with
  | 0 => ⟨br, chk, [], false⟩
  | fuel + 1 =>
    if isCancelled cancelAt chk then ⟨br, chk + 1, [], false⟩
    else
      let chunk := min bufferSize (fileSize - br)
      if chunk = 0 then ⟨br, chk + 1, [], false⟩
      else
        let br2 := br + chunk
        let percent := 50 + br2 * 50 / ts
        let rest := readStandardLoop fuel ts fileSize cancelAt (chk + 1) br2
        ⟨rest.bytes, rest.chk,
          (br2, Event.progress (readStatus percent) percent) :: rest.trace,
          false⟩

/-- The Windows unbuffered read loop of `SpeedTestThread._read_windows_uncached`
(lines 345-375): `while total_read < test_size`, check the cancellation flag,
`ReadFile` up to `min(buffer_size, test_size - total_read)` bytes (bounded by
what remains in the file; a zero-byte read breaks), and emit a progress event
with `percent = 50 + int(total_read / test_size * 50)`. -/
def readWindowsLoop (fuel ts fileSize : ℕ) (cancelAt : Option ℕ)
    (chk tr : ℕ) : LoopOut :=
  match fuel with
  | 0 => ⟨tr, chk, [], false⟩
  | fuel + 1 =>
    if tr < ts then
      if isCancelled cancelAt chk then ⟨tr, chk + 1, [], false⟩
      else
        let toRead := min bufferSize (ts - tr)
        let got := min toRead (fileSize - tr)
        if got = 0 then ⟨tr, chk + 1, [], false⟩
        else
          let tr2 := tr + got
          let percent := 50 + tr2 * 50 / ts
          let rest := readWindowsLoop fuel ts fileSize cancelAt (chk + 1) tr2
          ⟨rest.bytes, rest.chk,
            (tr2, Event.progress (readStatus percent) percent) :: rest.trace,
            false⟩
    else ⟨tr, chk, [], false⟩

/-- The macOS dd read of `SpeedTestThread._read_macos_dd` (lines 208-268):
a one-byte `f.read(1)` after setting `F_NOCACHE` (no event), a fixed progress
emission at percent 70, then the blocking `dd if=... of=/dev/null` subprocess
(which transfers the whole file and is never consulted about cancellation —
the function takes no cancellation input at all, mirroring the absence of any
`_is_cancelled` check in the source), a fixed progress emission at percent
100, and a speed computed from `os.path.getsize`, not from a byte counter.
`ddTimeout` injects `subprocess.TimeoutExpired`, re-raised as the exception
text `dd 读取超时`. -/
def readMacosDd (fileSize : ℕ) (ddTimeout : Bool) (elapsed : ℚ) :
    Except String ℚ × List (ℕ × Event) :=
  let pre := min 1 fileSize
  let ev1 := (pre, Event.progress "使用 dd 命令进行无缓存读取..." 70)
  if ddTimeout then (Except.error "dd 读取超时", [ev1])
  else
    (Except.ok (speedOf fileSize elapsed),
      [ev1, (pre + fileSize, Event.progress "读取完成" 100)])

/-- Output of `_read_standard`: the speed it returns, the bytes its loop
counted, the next check index, and its annotated trace. -/
structure ReadOut where
  speed : ℚ
  bytes : ℕ
  chk : ℕ
  trace : List (ℕ × Event)
deriving DecidableEq, Repr

/-- Embedding of `SpeedTestThread._read_standard` (lines 141-206).  On
Darwin the pre-steps (`sudo -n purge`, the `F_NOCACHE` open/close, the
sleep) emit nothing; inside the reopened file, a failing `F_NOCACHE`
directive (`nocacheErr = some e`) is caught and emits the warning status
`警告: 缓存设置失败 - ...` at percent 50 without aborting.  Then the chunked
read loop runs and the speed is `bytes_read / 1MiB / elapsed` with the
zero guard. -/
def readStandard (ts fileSize : ℕ) (isDarwin : Bool)
    (nocacheErr : Option String) (cancelAt : Option ℕ) (chk : ℕ)
    (elapsed : ℚ) : ReadOut :=
  let warn : List (ℕ × Event) :=
    if isDarwin then
      match nocacheErr with
      | some e =>
        [(0, Event.progress ("警告: 缓存设置失败 - " ++ e) 50)]
      | none => []
    else []
  let lo := readStandardLoop (fileSize / bufferSize + 2) ts fileSize cancelAt
    chk 0
  { speed := speedOf lo.bytes elapsed,
    bytes := lo.bytes, chk := lo.chk, trace := warn ++ lo.trace }

/-- The preparation progress event of the write phase (line 49). -/
def prepWriteEvent (ts : ℕ) : Event :=
  Event.progress
    ("正在准备写入测试 (" ++ toString (ts / (1024 * 1024)) ++ "MB)...") 0

/-- The preparation progress event of the read phase (line 117). -/
def prepReadEvent : Event := Event.progress "正在准备读取测试..." 50

/-- The macOS cache-clear progress event (line 83). -/
def cacheClearEvent : Event := Event.progress "正在清除缓存..." 50

/-- The final guarded emission of line 133-135: `test_finished` is emitted
only when the cancellation flag reads false at that moment. -/
def finishTail (cancelAt : Option ℕ) (chk : ℕ) (w r : ℚ) : List Event :=
  if isCancelled cancelAt chk then [] else [Event.finished w r]

/-- Environment of one `run()` call: the request, the platform, when (if
ever) `cancel()` is observed, the fault-injection knobs, and the measured
wall-clock durations of the two phases. -/
structure Env where
  platform : Platform
  testSizeMB : ℕ
  cancelAt : Option ℕ
  createFails : Bool
  createErrMsg : String
  writeFailAt : Option ℕ
  writeErrMsg : String
  ddTimeout : Bool
  purgeOk : Bool
  writeElapsed : ℚ
  readElapsed : ℚ
deriving DecidableEq, Repr

/-- Observable outcome of one `run()` call: all signal emissions in order,
whether the temporary file still exists in the target directory afterwards
(file-system operations other than the injected faults succeed; in
particular `os.remove` in `_cleanup` succeeds — the source swallows removal
errors), and the byte totals of the two phases. -/
structure RunOut where
  events : List Event
  tempExists : Bool
  bytesWritten : ℕ
  bytesRead : ℕ
deriving DecidableEq, Repr

/-- The write-phase loop of a run (lines 55-67), started at byte 0 and check
index 0.  The fuel `ts / bufferSize + 1` dominates the iteration count
because every iteration consumes `min(remaining, bufferSize) ≥ 1` bytes or
breaks. -/
def wOut (env : Env) : LoopOut :=
  writeLoop (testSizeBytes env.testSizeMB / bufferSize + 1)
    (testSizeBytes env.testSizeMB) env.cancelAt env.writeFailAt 0 0 0

/-- The Windows read phase of a run (`_read_windows_uncached`), reading the
file the write phase produced, with check indices continuing after the
line-77 check. -/
def rWinOut (env : Env) : LoopOut :=
  readWindowsLoop (testSizeBytes env.testSizeMB / bufferSize + 1)
    (testSizeBytes env.testSizeMB) (wOut env).bytes env.cancelAt
    ((wOut env).chk + 1) 0

/-- The fallback read phase of a run (`_read_standard` on a platform that is
neither Windows nor Darwin, so none of its Darwin-only branches run). -/
def rStdOut (env : Env) : ReadOut :=
  readStandard (testSizeBytes env.testSizeMB) (wOut env).bytes false none
    env.cancelAt ((wOut env).chk + 1) env.readElapsed

/-- The macOS dd read phase of a run (`_read_macos_dd`). -/
def ddOut (env : Env) : Except String ℚ × List (ℕ × Event) :=
  readMacosDd (wOut env).bytes env.ddTimeout env.readElapsed

/-- Embedding of `SpeedTestThread.run` (lines 41-139).  Write phase, the
macOS cache-clear block (whose `purge` outcome only changes console prints,
never emitted events), the platform-dispatched read phase, `_cleanup`, and
the final `if not self._is_cancelled` guard around `test_finished`.  Check
indices: one per write-loop iteration, one at line 77, one per read-loop
iteration, one at line 133. -/
def runThread (env : Env) : RunOut :=
  let ts := testSizeBytes env.testSizeMB
  if env.createFails then
    { events := [prepWriteEvent ts,
        Event.error ("测试失败: " ++ env.createErrMsg)],
      tempExists := false, bytesWritten := 0, bytesRead := 0 }
  else if (wOut env).failed then
    { events := prepWriteEvent ts :: (wOut env).trace.map Prod.snd ++
        [Event.error ("测试失败: " ++ env.writeErrMsg)],
      tempExists := false, bytesWritten := (wOut env).bytes, bytesRead := 0 }
  else if isCancelled env.cancelAt (wOut env).chk then
    { events := prepWriteEvent ts :: (wOut env).trace.map Prod.snd,
      tempExists := false, bytesWritten := (wOut env).bytes, bytesRead := 0 }
  else
    match env.platform with
    | Platform.windows =>
      { events := prepWriteEvent ts :: (wOut env).trace.map Prod.snd ++
          [prepReadEvent] ++ (rWinOut env).trace.map Prod.snd ++
          finishTail env.cancelAt (rWinOut env).chk
            (speedOf ts env.writeElapsed)
            (speedOf (rWinOut env).bytes env.readElapsed),
        tempExists := false, bytesWritten := (wOut env).bytes,
        bytesRead := (rWinOut env).bytes }
    | Platform.darwin =>
      match ddOut env with
      | (Except.error msg, ddtr) =>
        { events := prepWriteEvent ts :: (wOut env).trace.map Prod.snd ++
            [cacheClearEvent, prepReadEvent] ++ ddtr.map Prod.snd ++
            [Event.error ("测试失败: " ++ msg)],
          tempExists := false, bytesWritten := (wOut env).bytes,
          bytesRead := 0 }
      | (Except.ok rSpeed, ddtr) =>
        { events := prepWriteEvent ts :: (wOut env).trace.map Prod.snd ++
            [cacheClearEvent, prepReadEvent] ++ ddtr.map Prod.snd ++
            finishTail env.cancelAt ((wOut env).chk + 1)
              (speedOf ts env.writeElapsed) rSpeed,
          tempExists := false, bytesWritten := (wOut env).bytes,
          bytesRead := (wOut env).bytes }
    | Platform.other =>
      { events := prepWriteEvent ts :: (wOut env).trace.map Prod.snd ++
          [prepReadEvent] ++ (rStdOut env).trace.map Prod.snd ++
          finishTail env.cancelAt (rStdOut env).chk
            (speedOf ts env.writeElapsed) (rStdOut env).speed,
        tempExists := false, bytesWritten := (wOut env).bytes,
        bytesRead := (rStdOut env).bytes }

/-- A fault-free environment with both phase durations equal to one second,
parameterised by platform, test size and cancellation instant. -/
def baseEnv (p : Platform) (mb : ℕ) (ca : Option ℕ) : Env :=
  { platform := p, testSizeMB := mb, cancelAt := ca, createFails := false,
    createErrMsg := "Permission denied", writeFailAt := none,
    writeErrMsg := "I/O error", ddTimeout := false, purgeOk := true,
    writeElapsed := 1, readElapsed := 1 }

/-- A fallback-platform run of the default 100 MB test, never cancelled. -/
def envScenario : Env := baseEnv Platform.other 100 none

/-- A 1 MB fallback-platform run cancelled before the first flag check. -/
def envCancelImmediate : Env := baseEnv Platform.other 1 (some 0)

/-- A 1 MB fallback-platform run, never cancelled. -/
def envNormal : Env := baseEnv Platform.other 1 none

/-- A 1 MB macOS run whose cancellation arrives while the dd subprocess is
running: the flag is still false at the post-write check (index 1) and
reads true at the post-read check (index 2). -/
def envDdCancel : Env := baseEnv Platform.darwin 1 (some 2)

/-- A 1 MB macOS run in which the privileged `purge` command fails (no root,
`sudo -n purge` refused) and nothing else goes wrong. -/
def envPurgeFail : Env :=
  { baseEnv Platform.darwin 1 none with purgeOk := false }

/-! ### Basic facts -/

lemma bufferSize_eq : bufferSize = 4194304 := rfl

lemma bufferSize_pos : 0 < bufferSize := by norm_num [bufferSize, MiB]

@[simp] lemma isCancelled_none (i : ℕ) : isCancelled none i = false := rfl

lemma mul50_div_le {a ts : ℕ} (h : a ≤ ts) : a * 50 / ts ≤ 50 := by
  rcases Nat.eq_zero_or_pos ts with h0 | h0
  · subst h0; simp
  · calc a * 50 / ts ≤ ts * 50 / ts :=
        Nat.div_le_div_right (Nat.mul_le_mul_right _ h)
    _ = 50 := Nat.mul_div_cancel_left 50 h0

lemma mem_of_head? {α : Type} {l : List α} {a : α} (h : a ∈ l.head?) :
    a ∈ l := by
  cases l with
  | nil => simp at h
  | cons b t =>
    simp only [List.head?_cons, Option.mem_def, Option.some.injEq] at h
    exact h ▸ List.mem_cons_self b t

lemma chain_le_glue (c : ℕ) :
    ∀ l₁ l₂ : List ℕ, List.Chain' (· ≤ ·) l₁ → List.Chain' (· ≤ ·) l₂ →
      (∀ a ∈ l₁, a ≤ c) → (∀ a ∈ l₂, c ≤ a) →
      List.Chain' (· ≤ ·) (l₁ ++ l₂)
  | [], _, _, h₂, _, _ => h₂
  | [a], l₂, _, h₂, b₁, b₂ => by
    rw [List.singleton_append]
    exact List.chain'_cons'.mpr
      ⟨fun y hy => le_trans (b₁ a (List.mem_singleton_self a))
        (b₂ y (mem_of_head? hy)), h₂⟩
  | a :: b :: t, l₂, h₁, h₂, b₁, b₂ => by
    rw [List.cons_append]
    have h₁' := List.chain'_cons.mp h₁
    exact List.chain'_cons.mpr ⟨h₁'.1,
      chain_le_glue c (b :: t) l₂ h₁'.2 h₂
        (fun x hx => b₁ x (List.mem_cons_of_mem a hx)) b₂⟩

/-! ### Shape of the loop traces -/

lemma writeLoop_trace_spec (ts : ℕ) (ca fa : Option ℕ) :
    ∀ fuel iter chk bw,
      (∀ x ∈ (writeLoop fuel ts ca fa iter chk bw).trace,
          x.2 = Event.progress (writeStatus (x.1 * 50 / ts))
            (x.1 * 50 / ts) ∧ bw < x.1 ∧ x.1 ≤ ts) ∧
      List.Chain' (fun a b : ℕ × Event => a.1 < b.1)
        (writeLoop fuel ts ca fa iter chk bw).trace := by
  intro fuel
  induction fuel with
  | zero =>
    intro iter chk bw
    constructor
    · intro x hx; simp [writeLoop] at hx
    · simp [writeLoop]
  | succ fuel ih =>
    intro iter chk bw
    by_cases h1 : bw < ts
    · by_cases h2 : isCancelled ca chk = true
      · constructor
        · intro x hx; simp [writeLoop, h1, h2] at hx
        · simp [writeLoop, h1, h2]
      · by_cases h3 : fa = some iter
        · constructor
          · intro x hx; simp [writeLoop, h1, h2, h3] at hx
          · simp [writeLoop, h1, h2, h3]
        · have hrec := ih (iter + 1) (chk + 1) (bw + min (ts - bw) bufferSize)
          have hunf : writeLoop (fuel + 1) ts ca fa iter chk bw =
              ⟨(writeLoop fuel ts ca fa (iter + 1) (chk + 1)
                  (bw + min (ts - bw) bufferSize)).bytes,
               (writeLoop fuel ts ca fa (iter + 1) (chk + 1)
                  (bw + min (ts - bw) bufferSize)).chk,
               (bw + min (ts - bw) bufferSize,
                Event.progress
                  (writeStatus ((bw + min (ts - bw) bufferSize) * 50 / ts))
                  ((bw + min (ts - bw) bufferSize) * 50 / ts)) ::
                 (writeLoop fuel ts ca fa (iter + 1) (chk + 1)
                   (bw + min (ts - bw) bufferSize)).trace,
               (writeLoop fuel ts ca fa (iter + 1) (chk + 1)
                 (bw + min (ts - bw) bufferSize)).failed⟩ := by
            conv_lhs => rw [writeLoop]
            simp [h1, h2, h3]
          rw [hunf]
          have hB := bufferSize_pos
          have hlt : bw < bw + min (ts - bw) bufferSize := by omega
          have hle : bw + min (ts - bw) bufferSize ≤ ts := by omega
          constructor
          · intro x hx
            rcases List.mem_cons.mp hx with hx | hx
            · subst hx; exact ⟨rfl, hlt, hle⟩
            · obtain ⟨hs, hlt', hle'⟩ := hrec.1 x hx
              exact ⟨hs, lt_trans hlt hlt', hle'⟩
          · refine List.chain'_cons'.mpr ⟨?_, hrec.2⟩
            intro y hy
            exact (hrec.1 y (mem_of_head? hy)).2.1
    · constructor
      · intro x hx; simp [writeLoop, h1] at hx
      · simp [writeLoop, h1]

lemma readStandardLoop_trace_spec (ts fileSize : ℕ) (ca : Option ℕ) :
    ∀ fuel chk br,
      (∀ x ∈ (readStandardLoop fuel ts fileSize ca chk br).trace,
          x.2 = Event.progress (readStatus (50 + x.1 * 50 / ts))
            (50 + x.1 * 50 / ts) ∧ br < x.1 ∧ x.1 ≤ fileSize) ∧
      List.Chain' (fun a b : ℕ × Event => a.1 < b.1)
        (readStandardLoop fuel ts fileSize ca chk br).trace := by
  intro fuel
  induction fuel with
  | zero =>
    intro chk br
    constructor
    · intro x hx; simp [readStandardLoop] at hx
    · simp [readStandardLoop]
  | succ fuel ih =>
    intro chk br
    by_cases h1 : isCancelled ca chk = true
    · constructor
      · intro x hx; simp [readStandardLoop, h1] at hx
      · simp [readStandardLoop, h1]
    · by_cases h2 : min bufferSize (fileSize - br) = 0
      · constructor
        · intro x hx; simp [readStandardLoop, h1, h2] at hx
        · simp [readStandardLoop, h1, h2]
      · have hrec := ih (chk + 1) (br + min bufferSize (fileSize - br))
        have hunf : readStandardLoop (fuel + 1) ts fileSize ca chk br =
            ⟨(readStandardLoop fuel ts fileSize ca (chk + 1)
                (br + min bufferSize (fileSize - br))).bytes,
             (readStandardLoop fuel ts fileSize ca (chk + 1)
                (br + min bufferSize (fileSize - br))).chk,
             (br + min bufferSize (fileSize - br),
              Event.progress
                (readStatus
                  (50 + (br + min bufferSize (fileSize - br)) * 50 / ts))
                (50 + (br + min bufferSize (fileSize - br)) * 50 / ts)) ::
               (readStandardLoop fuel ts fileSize ca (chk + 1)
                 (br + min bufferSize (fileSize - br))).trace,
             false⟩ := by
          conv_lhs => rw [readStandardLoop]
          simp [h1, h2]
        rw [hunf]
        have hlt : br < br + min bufferSize (fileSize - br) := by omega
        have hle : br + min bufferSize (fileSize - br) ≤ fileSize := by omega
        constructor
        · intro x hx
          rcases List.mem_cons.mp hx with hx | hx
          · subst hx; exact ⟨rfl, hlt, hle⟩
          · obtain ⟨hs, hlt', hle'⟩ := hrec.1 x hx
            exact ⟨hs, lt_trans hlt hlt', hle'⟩
        · refine List.chain'_cons'.mpr ⟨?_, hrec.2⟩
          intro y hy
          exact (hrec.1 y (mem_of_head? hy)).2.1

lemma readWindowsLoop_trace_spec (ts fileSize : ℕ) (ca : Option ℕ) :
    ∀ fuel chk tr,
      (∀ x ∈ (readWindowsLoop fuel ts fileSize ca chk tr).trace,
          x.2 = Event.progress (readStatus (50 + x.1 * 50 / ts))
            (50 + x.1 * 50 / ts) ∧ tr < x.1 ∧ x.1 ≤ ts) ∧
      List.Chain' (fun a b : ℕ × Event => a.1 < b.1)
        (readWindowsLoop fuel ts fileSize ca chk tr).trace := by
  intro fuel
  induction fuel with
  | zero =>
    intro chk tr
    constructor
    · intro x hx; simp [readWindowsLoop] at hx
    · simp [readWindowsLoop]
  | succ fuel ih =>
    intro chk tr
    by_cases h1 : tr < ts
    · by_cases h2 : isCancelled ca chk = true
      · constructor
        · intro x hx; simp [readWindowsLoop, h1, h2] at hx
        · simp [readWindowsLoop, h1, h2]
      · by_cases h3 : min (min bufferSize (ts - tr)) (fileSize - tr) = 0
        · constructor
          · intro x hx; simp [readWindowsLoop, h1, h2, h3] at hx
          · simp [readWindowsLoop, h1, h2, h3]
        · have hrec := ih (chk + 1)
            (tr + min (min bufferSize (ts - tr)) (fileSize - tr))
          have hunf : readWindowsLoop (fuel + 1) ts fileSize ca chk tr =
              ⟨(readWindowsLoop fuel ts fileSize ca (chk + 1)
                  (tr + min (min bufferSize (ts - tr)) (fileSize - tr))).bytes,
               (readWindowsLoop fuel ts fileSize ca (chk + 1)
                  (tr + min (min bufferSize (ts - tr)) (fileSize - tr))).chk,
               (tr + min (min bufferSize (ts - tr)) (fileSize - tr),
                Event.progress
                  (readStatus (50 +
                    (tr + min (min bufferSize (ts - tr)) (fileSize - tr)) *
                      50 / ts))
                  (50 +
                    (tr + min (min bufferSize (ts - tr)) (fileSize - tr)) *
                      50 / ts)) ::
                 (readWindowsLoop fuel ts fileSize ca (chk + 1)
                   (tr + min (min bufferSize (ts - tr))
                     (fileSize - tr))).trace,
               false⟩ := by
            conv_lhs => rw [readWindowsLoop]
            simp [h1, h2, h3]
            omega
          rw [hunf]
          have hlt :
              tr < tr + min (min bufferSize (ts - tr)) (fileSize - tr) := by
            omega
          have hle :
              tr + min (min bufferSize (ts - tr)) (fileSize - tr) ≤ ts := by
            omega
          constructor
          · intro x hx
            rcases List.mem_cons.mp hx with hx | hx
            · subst hx; exact ⟨rfl, hlt, hle⟩
            · obtain ⟨hs, hlt', hle'⟩ := hrec.1 x hx
              exact ⟨hs, lt_trans hlt hlt', hle'⟩
          · refine List.chain'_cons'.mpr ⟨?_, hrec.2⟩
            intro y hy
            exact (hrec.1 y (mem_of_head? hy)).2.1
    · constructor
      · intro x hx; simp [readWindowsLoop, h1] at hx
      · simp [readWindowsLoop, h1]

/-! ### Full completion of the loops when never cancelled and fault-free -/

lemma writeLoop_complete (ts : ℕ) :
    ∀ fuel iter chk bw, bw ≤ ts → ts - bw ≤ fuel * bufferSize →
      (writeLoop fuel ts none none iter chk bw).bytes = ts ∧
      (writeLoop fuel ts none none iter chk bw).failed = false := by
  intro fuel
  induction fuel with
  | zero =>
    intro iter chk bw hle hf
    have hbw : bw = ts := by simp at hf; omega
    simp [writeLoop, hbw]
  | succ fuel ih =>
    intro iter chk bw hle hf
    by_cases h1 : bw < ts
    · have hunf : writeLoop (fuel + 1) ts none none iter chk bw =
          ⟨(writeLoop fuel ts none none (iter + 1) (chk + 1)
              (bw + min (ts - bw) bufferSize)).bytes,
           (writeLoop fuel ts none none (iter + 1) (chk + 1)
              (bw + min (ts - bw) bufferSize)).chk,
           (bw + min (ts - bw) bufferSize,
            Event.progress
              (writeStatus ((bw + min (ts - bw) bufferSize) * 50 / ts))
              ((bw + min (ts - bw) bufferSize) * 50 / ts)) ::
             (writeLoop fuel ts none none (iter + 1) (chk + 1)
               (bw + min (ts - bw) bufferSize)).trace,
           (writeLoop fuel ts none none (iter + 1) (chk + 1)
             (bw + min (ts - bw) bufferSize)).failed⟩ := by
        conv_lhs => rw [writeLoop]
        simp [h1]
      rw [hunf]
      have hB := bufferSize_pos
      refine ih (iter + 1) (chk + 1) (bw + min (ts - bw) bufferSize)
        (by omega) ?_
      rw [bufferSize_eq] at hf ⊢
      omega
    · have hbw : bw = ts := by omega
      constructor
      · have : (writeLoop (fuel + 1) ts none none iter chk bw).bytes = bw := by
          conv_lhs => rw [writeLoop]
          simp [h1]
        rw [this, hbw]
      · conv_lhs => rw [writeLoop]
        simp [h1]

lemma readStandardLoop_complete (ts fileSize : ℕ) :
    ∀ fuel chk br, br ≤ fileSize → fileSize - br ≤ fuel * bufferSize →
      (readStandardLoop fuel ts fileSize none chk br).bytes = fileSize := by
  intro fuel
  induction fuel with
  | zero =>
    intro chk br hle hf
    have hbr : br = fileSize := by simp at hf; omega
    simp [readStandardLoop, hbr]
  | succ fuel ih =>
    intro chk br hle hf
    have hB := bufferSize_pos
    by_cases h2 : min bufferSize (fileSize - br) = 0
    · have hbr : br = fileSize := by omega
      have : (readStandardLoop (fuel + 1) ts fileSize none chk br).bytes =
          br := by
        conv_lhs => rw [readStandardLoop]
        simp [h2]
      rw [this, hbr]
    · have hunf :
          (readStandardLoop (fuel + 1) ts fileSize none chk br).bytes =
          (readStandardLoop fuel ts fileSize none (chk + 1)
            (br + min bufferSize (fileSize - br))).bytes := by
        conv_lhs => rw [readStandardLoop]
        simp [h2]
      rw [hunf]
      refine ih (chk + 1) (br + min bufferSize (fileSize - br))
        (by omega) ?_
      rw [bufferSize_eq] at hf ⊢
      omega

lemma readWindowsLoop_complete (ts : ℕ) :
    ∀ fuel chk tr, tr ≤ ts → ts - tr ≤ fuel * bufferSize →
      (readWindowsLoop fuel ts ts none chk tr).bytes = ts := by
  intro fuel
  induction fuel with
  | zero =>
    intro chk tr hle hf
    have htr : tr = ts := by simp at hf; omega
    simp [readWindowsLoop, htr]
  | succ fuel ih =>
    intro chk tr hle hf
    have hB := bufferSize_pos
    by_cases h1 : tr < ts
    · have hmm : min (min bufferSize (ts - tr)) (ts - tr) =
          min bufferSize (ts - tr) := by omega
      have h3 : ¬ min bufferSize (ts - tr) = 0 := by omega
      have hunf :
          (readWindowsLoop (fuel + 1) ts ts none chk tr).bytes =
          (readWindowsLoop fuel ts ts none (chk + 1)
            (tr + min bufferSize (ts - tr))).bytes := by
        conv_lhs => rw [readWindowsLoop]
        rw [if_pos h1]
        simp only [isCancelled_none, Bool.false_eq_true, if_false, hmm]
        rw [if_neg h3]
      rw [hunf]
      refine ih (chk + 1) (tr + min bufferSize (ts - tr))
        (by omega) ?_
      rw [bufferSize_eq] at hf ⊢
      omega
    · have htr : tr = ts := by omega
      have : (readWindowsLoop (fuel + 1) ts ts none chk tr).bytes = tr := by
        conv_lhs => rw [readWindowsLoop]
        simp [h1]
      rw [this, htr]

/-- Sufficient fuel for all three loops: one pass over `n` bytes in
`bufferSize`-sized chunks fits in `n / bufferSize + 1` iterations. -/
lemma fuel_suffices (n : ℕ) : n ≤ (n / bufferSize + 1) * bufferSize := by
  rw [bufferSize_eq]
  omega

/-! ### The dd read as a pair of fixed emissions -/

lemma readMacosDd_ok (fs : ℕ) (e : ℚ) :
    readMacosDd fs false e =
      (Except.ok (speedOf fs e),
        [(min 1 fs, Event.progress "使用 dd 命令进行无缓存读取..." 70),
         (min 1 fs + fs, Event.progress "读取完成" 100)]) := rfl

lemma readMacosDd_timeout (fs : ℕ) (e : ℚ) :
    readMacosDd fs true e =
      (Except.error "dd 读取超时",
        [(min 1 fs, Event.progress "使用 dd 命令进行无缓存读取..." 70)]) := rfl

/-! ### Percents extraction -/

@[simp] lemma progressPercents_nil : progressPercents [] = [] := rfl

@[simp] lemma progressPercents_cons_progress (s : String) (p : ℕ)
    (l : List Event) :
    progressPercents (Event.progress s p :: l) = p :: progressPercents l :=
  rfl

@[simp] lemma progressPercents_cons_finished (w r : ℚ) (l : List Event) :
    progressPercents (Event.finished w r :: l) = progressPercents l := rfl

@[simp] lemma progressPercents_cons_error (m : String) (l : List Event) :
    progressPercents (Event.error m :: l) = progressPercents l := rfl

lemma progressPercents_append (l₁ l₂ : List Event) :
    progressPercents (l₁ ++ l₂) =
      progressPercents l₁ ++ progressPercents l₂ := by
  simp [progressPercents, List.filterMap_append]

lemma progressPercents_map_of_shape {g : ℕ × Event → ℕ} :
    ∀ tr : List (ℕ × Event),
      (∀ x ∈ tr, ∃ s, x.2 = Event.progress s (g x)) →
      progressPercents (tr.map Prod.snd) = tr.map g := by
  intro tr
  induction tr with
  | nil => intro _; rfl
  | cons a t ih =>
    intro h
    obtain ⟨s, hs⟩ := h a (List.mem_cons_self a t)
    simp only [List.map_cons, hs, progressPercents_cons_progress]
    rw [ih fun x hx => h x (List.mem_cons_of_mem a hx)]

lemma chain_le_of_trace_chain {g : ℕ × Event → ℕ} {tr : List (ℕ × Event)}
    (mono : ∀ a b : ℕ × Event, a.1 < b.1 → g a ≤ g b)
    (hc : List.Chain' (fun a b : ℕ × Event => a.1 < b.1) tr) :
    List.Chain' (· ≤ ·) (tr.map g) :=
  (List.chain'_map g).mpr (hc.imp mono)

/-! ### Terminal-event classification -/

@[simp] lemma isTerminalEv_progress (s : String) (p : ℕ) :
    isTerminalEv (Event.progress s p) = false := rfl

@[simp] lemma isTerminalEv_finished (w r : ℚ) :
    isTerminalEv (Event.finished w r) = true := rfl

@[simp] lemma isTerminalEv_error (m : String) :
    isTerminalEv (Event.error m) = true := rfl

/-! ### Branch equations of the orchestrator -/

lemma ddOut_timeout (env : Env) (h : env.ddTimeout = true) :
    ddOut env =
      (Except.error "dd 读取超时",
        [(min 1 (wOut env).bytes,
          Event.progress "使用 dd 命令进行无缓存读取..." 70)]) := by
  unfold ddOut
  rw [h, readMacosDd_timeout]

lemma ddOut_ok (env : Env) (h : env.ddTimeout = false) :
    ddOut env =
      (Except.ok (speedOf (wOut env).bytes env.readElapsed),
        [(min 1 (wOut env).bytes,
          Event.progress "使用 dd 命令进行无缓存读取..." 70),
         (min 1 (wOut env).bytes + (wOut env).bytes,
          Event.progress "读取完成" 100)]) := by
  unfold ddOut
  rw [h, readMacosDd_ok]

lemma rStdOut_eq (env : Env) :
    rStdOut env =
      { speed := speedOf
          (readStandardLoop ((wOut env).bytes / bufferSize + 2)
            (testSizeBytes env.testSizeMB) (wOut env).bytes env.cancelAt
            ((wOut env).chk + 1) 0).bytes env.readElapsed,
        bytes := (readStandardLoop ((wOut env).bytes / bufferSize + 2)
          (testSizeBytes env.testSizeMB) (wOut env).bytes env.cancelAt
          ((wOut env).chk + 1) 0).bytes,
        chk := (readStandardLoop ((wOut env).bytes / bufferSize + 2)
          (testSizeBytes env.testSizeMB) (wOut env).bytes env.cancelAt
          ((wOut env).chk + 1) 0).chk,
        trace := (readStandardLoop ((wOut env).bytes / bufferSize + 2)
          (testSizeBytes env.testSizeMB) (wOut env).bytes env.cancelAt
          ((wOut env).chk + 1) 0).trace } := by
  unfold rStdOut readStandard
  simp

lemma runThread_createFails (env : Env) (h : env.createFails = true) :
    runThread env =
      { events := [prepWriteEvent (testSizeBytes env.testSizeMB),
          Event.error ("测试失败: " ++ env.createErrMsg)],
        tempExists := false, bytesWritten := 0, bytesRead := 0 } := by
  unfold runThread
  simp [h]

lemma runThread_writeErr (env : Env) (h1 : env.createFails = false)
    (h2 : (wOut env).failed = true) :
    runThread env =
      { events := prepWriteEvent (testSizeBytes env.testSizeMB) ::
          (wOut env).trace.map Prod.snd ++
          [Event.error ("测试失败: " ++ env.writeErrMsg)],
        tempExists := false, bytesWritten := (wOut env).bytes,
        bytesRead := 0 } := by
  unfold runThread
  simp [h1, h2]

lemma runThread_cancelWrite (env : Env) (h1 : env.createFails = false)
    (h2 : (wOut env).failed = false)
    (h3 : isCancelled env.cancelAt (wOut env).chk = true) :
    runThread env =
      { events := prepWriteEvent (testSizeBytes env.testSizeMB) ::
          (wOut env).trace.map Prod.snd,
        tempExists := false, bytesWritten := (wOut env).bytes,
        bytesRead := 0 } := by
  unfold runThread
  simp [h1, h2, h3]

lemma runThread_windows (env : Env) (hp : env.platform = Platform.windows)
    (h1 : env.createFails = false) (h2 : (wOut env).failed = false)
    (h3 : isCancelled env.cancelAt (wOut env).chk = false) :
    runThread env =
      { events := prepWriteEvent (testSizeBytes env.testSizeMB) ::
          (wOut env).trace.map Prod.snd ++ [prepReadEvent] ++
          (rWinOut env).trace.map Prod.snd ++
          finishTail env.cancelAt (rWinOut env).chk
            (speedOf (testSizeBytes env.testSizeMB) env.writeElapsed)
            (speedOf (rWinOut env).bytes env.readElapsed),
        tempExists := false, bytesWritten := (wOut env).bytes,
        bytesRead := (rWinOut env).bytes } := by
  unfold runThread
  simp [h1, h2, h3, hp]

lemma runThread_darwin_timeout (env : Env)
    (hp : env.platform = Platform.darwin) (h1 : env.createFails = false)
    (h2 : (wOut env).failed = false)
    (h3 : isCancelled env.cancelAt (wOut env).chk = false)
    (h4 : env.ddTimeout = true) :
    runThread env =
      { events := prepWriteEvent (testSizeBytes env.testSizeMB) ::
          (wOut env).trace.map Prod.snd ++
          [cacheClearEvent, prepReadEvent] ++
          [Event.progress "使用 dd 命令进行无缓存读取..." 70] ++
          [Event.error ("测试失败: " ++ "dd 读取超时")],
        tempExists := false, bytesWritten := (wOut env).bytes,
        bytesRead := 0 } := by
  unfold runThread
  rw [ddOut_timeout env h4]
  simp [h1, h2, h3, hp]

lemma runThread_darwin_ok (env : Env)
    (hp : env.platform = Platform.darwin) (h1 : env.createFails = false)
    (h2 : (wOut env).failed = false)
    (h3 : isCancelled env.cancelAt (wOut env).chk = false)
    (h4 : env.ddTimeout = false) :
    runThread env =
      { events := prepWriteEvent (testSizeBytes env.testSizeMB) ::
          (wOut env).trace.map Prod.snd ++
          [cacheClearEvent, prepReadEvent] ++
          [Event.progress "使用 dd 命令进行无缓存读取..." 70,
           Event.progress "读取完成" 100] ++
          finishTail env.cancelAt ((wOut env).chk + 1)
            (speedOf (testSizeBytes env.testSizeMB) env.writeElapsed)
            (speedOf (wOut env).bytes env.readElapsed),
        tempExists := false, bytesWritten := (wOut env).bytes,
        bytesRead := (wOut env).bytes } := by
  unfold runThread
  rw [ddOut_ok env h4]
  simp [h1, h2, h3, hp]

lemma runThread_other (env : Env) (hp : env.platform = Platform.other)
    (h1 : env.createFails = false) (h2 : (wOut env).failed = false)
    (h3 : isCancelled env.cancelAt (wOut env).chk = false) :
    runThread env =
      { events := prepWriteEvent (testSizeBytes env.testSizeMB) ::
          (wOut env).trace.map Prod.snd ++ [prepReadEvent] ++
          (rStdOut env).trace.map Prod.snd ++
          finishTail env.cancelAt (rStdOut env).chk
            (speedOf (testSizeBytes env.testSizeMB) env.writeElapsed)
            (rStdOut env).speed,
        tempExists := false, bytesWritten := (wOut env).bytes,
        bytesRead := (rStdOut env).bytes } := by
  unfold runThread
  simp [h1, h2, h3, hp]

/-! ### Facts about the event lists of each phase -/

lemma writeEvents_facts (ts : ℕ) (ca fa : Option ℕ) (fuel iter chk : ℕ) :
    (∀ e ∈ (writeLoop fuel ts ca fa iter chk 0).trace.map Prod.snd,
        isTerminalEv e = false) ∧
    List.Chain' (· ≤ ·)
      (progressPercents
        ((writeLoop fuel ts ca fa iter chk 0).trace.map Prod.snd)) ∧
    (∀ p ∈ progressPercents
        ((writeLoop fuel ts ca fa iter chk 0).trace.map Prod.snd),
      p ≤ 50) := by
  have hs := writeLoop_trace_spec ts ca fa fuel iter chk 0
  have hmap := progressPercents_map_of_shape
    (g := fun x : ℕ × Event => x.1 * 50 / ts)
    (writeLoop fuel ts ca fa iter chk 0).trace
    (fun x hx => ⟨_, (hs.1 x hx).1⟩)
  refine ⟨?_, ?_, ?_⟩
  · intro e he
    obtain ⟨x, hx, rfl⟩ := List.mem_map.mp he
    rw [(hs.1 x hx).1]
    rfl
  · rw [hmap]
    exact chain_le_of_trace_chain
      (fun a b h =>
        Nat.div_le_div_right (Nat.mul_le_mul_right _ (le_of_lt h))) hs.2
  · intro p hp
    rw [hmap] at hp
    obtain ⟨x, hx, rfl⟩ := List.mem_map.mp hp
    exact mul50_div_le (hs.1 x hx).2.2

lemma readStdEvents_facts (ts fileSize : ℕ) (ca : Option ℕ)
    (fuel chk : ℕ) :
    (∀ e ∈ (readStandardLoop fuel ts fileSize ca chk 0).trace.map Prod.snd,
        isTerminalEv e = false) ∧
    List.Chain' (· ≤ ·)
      (progressPercents
        ((readStandardLoop fuel ts fileSize ca chk 0).trace.map Prod.snd)) ∧
    (∀ p ∈ progressPercents
        ((readStandardLoop fuel ts fileSize ca chk 0).trace.map Prod.snd),
      50 ≤ p) := by
  have hs := readStandardLoop_trace_spec ts fileSize ca fuel chk 0
  have hmap := progressPercents_map_of_shape
    (g := fun x : ℕ × Event => 50 + x.1 * 50 / ts)
    (readStandardLoop fuel ts fileSize ca chk 0).trace
    (fun x hx => ⟨_, (hs.1 x hx).1⟩)
  refine ⟨?_, ?_, ?_⟩
  · intro e he
    obtain ⟨x, hx, rfl⟩ := List.mem_map.mp he
    rw [(hs.1 x hx).1]
    rfl
  · rw [hmap]
    exact chain_le_of_trace_chain
      (fun a b h =>
        Nat.add_le_add_left
          (Nat.div_le_div_right (Nat.mul_le_mul_right _ (le_of_lt h))) 50)
      hs.2
  · intro p hp
    rw [hmap] at hp
    obtain ⟨x, hx, rfl⟩ := List.mem_map.mp hp
    exact Nat.le_add_right 50 _

lemma readWinEvents_facts (ts fileSize : ℕ) (ca : Option ℕ)
    (fuel chk : ℕ) :
    (∀ e ∈ (readWindowsLoop fuel ts fileSize ca chk 0).trace.map Prod.snd,
        isTerminalEv e = false) ∧
    List.Chain' (· ≤ ·)
      (progressPercents
        ((readWindowsLoop fuel ts fileSize ca chk 0).trace.map Prod.snd)) ∧
    (∀ p ∈ progressPercents
        ((readWindowsLoop fuel ts fileSize ca chk 0).trace.map Prod.snd),
      50 ≤ p) := by
  have hs := readWindowsLoop_trace_spec ts fileSize ca fuel chk 0
  have hmap := progressPercents_map_of_shape
    (g := fun x : ℕ × Event => 50 + x.1 * 50 / ts)
    (readWindowsLoop fuel ts fileSize ca chk 0).trace
    (fun x hx => ⟨_, (hs.1 x hx).1⟩)
  refine ⟨?_, ?_, ?_⟩
  · intro e he
    obtain ⟨x, hx, rfl⟩ := List.mem_map.mp he
    rw [(hs.1 x hx).1]
    rfl
  · rw [hmap]
    exact chain_le_of_trace_chain
      (fun a b h =>
        Nat.add_le_add_left
          (Nat.div_le_div_right (Nat.mul_le_mul_right _ (le_of_lt h))) 50)
      hs.2
  · intro p hp
    rw [hmap] at hp
    obtain ⟨x, hx, rfl⟩ := List.mem_map.mp hp
    exact Nat.le_add_right 50 _

lemma progressPercents_finishTail (ca : Option ℕ) (chk : ℕ) (w r : ℚ) :
    progressPercents (finishTail ca chk w r) = [] := by
  unfold finishTail
  split <;> rfl

lemma finishTail_terminal (ca : Option ℕ) (chk : ℕ) (w r : ℚ) :
    ∀ e ∈ finishTail ca chk w r, isTerminalEv e = true := by
  unfold finishTail
  split
  · intro e he; simp at he
  · intro e he
    simp only [List.mem_singleton] at he
    rw [he]; rfl

lemma finishTail_length (ca : Option ℕ) (chk : ℕ) (w r : ℚ) :
    (finishTail ca chk w r).length ≤ 1 := by
  unfold finishTail
  split <;> simp

lemma rStdOut_trace (env : Env) :
    (rStdOut env).trace =
      (readStandardLoop ((wOut env).bytes / bufferSize + 2)
        (testSizeBytes env.testSizeMB) (wOut env).bytes env.cancelAt
        ((wOut env).chk + 1) 0).trace := by
  rw [rStdOut_eq]

lemma chain_percents_glue (pA pB : List ℕ)
    (hwc : List.Chain' (· ≤ ·) pA) (hwb : ∀ p ∈ pA, p ≤ 50)
    (hrc : List.Chain' (· ≤ ·) pB) (hrb : ∀ p ∈ pB, 50 ≤ p) :
    List.Chain' (· ≤ ·) (0 :: (pA ++ pB)) := by
  refine List.chain'_cons'.mpr ⟨fun y _ => Nat.zero_le y, ?_⟩
  exact chain_le_glue 50 pA pB hwc hrc hwb hrb

lemma cons50_facts (pB : List ℕ) (hrc : List.Chain' (· ≤ ·) pB)
    (hrb : ∀ p ∈ pB, 50 ≤ p) :
    List.Chain' (· ≤ ·) (50 :: pB) ∧ ∀ p ∈ 50 :: pB, 50 ≤ p := by
  constructor
  · exact List.chain'_cons'.mpr ⟨fun y hy => hrb y (mem_of_head? hy), hrc⟩
  · intro p hp
    rcases List.mem_cons.mp hp with hp | hp
    · omega
    · exact hrb p hp

/-- Every run's event list splits into a prefix of progress events whose
percents are non-decreasing, followed by at most one terminal event. -/
lemma runThread_decomp (env : Env) :
    ∃ init tail : List Event,
      (runThread env).events = init ++ tail ∧
      (∀ e ∈ init, isTerminalEv e = false) ∧
      List.Chain' (· ≤ ·) (progressPercents init) ∧
      progressPercents tail = [] ∧
      tail.length ≤ 1 ∧
      (∀ e ∈ tail, isTerminalEv e = true) := by
  have hW := writeEvents_facts (testSizeBytes env.testSizeMB) env.cancelAt
    env.writeFailAt (testSizeBytes env.testSizeMB / bufferSize + 1) 0 0
  cases hcf : env.createFails with
  | true =>
    refine ⟨[prepWriteEvent (testSizeBytes env.testSizeMB)],
      [Event.error ("测试失败: " ++ env.createErrMsg)], ?_, ?_, ?_, ?_, ?_,
      ?_⟩
    · rw [runThread_createFails env hcf]
      rfl
    · intro e he
      simp only [List.mem_singleton] at he
      rw [he]; rfl
    · simp [prepWriteEvent]
    · rfl
    · simp
    · intro e he
      simp only [List.mem_singleton] at he
      rw [he]
      rfl
  | false =>
    cases hwf : (wOut env).failed with
    | true =>
      refine ⟨prepWriteEvent (testSizeBytes env.testSizeMB) ::
        (wOut env).trace.map Prod.snd,
        [Event.error ("测试失败: " ++ env.writeErrMsg)], ?_, ?_, ?_, ?_, ?_,
        ?_⟩
      · rw [runThread_writeErr env hcf hwf]
      · intro e he
        rcases List.mem_cons.mp he with he | he
        · rw [he]; rfl
        · exact hW.1 e he
      · have hP : progressPercents
            (prepWriteEvent (testSizeBytes env.testSizeMB) ::
              (wOut env).trace.map Prod.snd) =
            0 :: (progressPercents ((wOut env).trace.map Prod.snd) ++ []) :=
          by simp [prepWriteEvent]
        rw [hP]
        exact chain_percents_glue _ _ hW.2.1 hW.2.2 List.chain'_nil
          (by intro p hp; simp at hp)
      · rfl
      · simp
      · intro e he
        simp only [List.mem_singleton] at he
        rw [he]
        rfl
    | false =>
      cases hcw : isCancelled env.cancelAt (wOut env).chk with
      | true =>
        refine ⟨prepWriteEvent (testSizeBytes env.testSizeMB) ::
          (wOut env).trace.map Prod.snd, [], ?_, ?_, ?_, ?_, ?_, ?_⟩
        · rw [runThread_cancelWrite env hcf hwf hcw]
          simp
        · intro e he
          rcases List.mem_cons.mp he with he | he
          · rw [he]; rfl
          · exact hW.1 e he
        · have hP : progressPercents
              (prepWriteEvent (testSizeBytes env.testSizeMB) ::
                (wOut env).trace.map Prod.snd) =
              0 :: (progressPercents ((wOut env).trace.map Prod.snd) ++ []) :=
            by simp [prepWriteEvent]
          rw [hP]
          exact chain_percents_glue _ _ hW.2.1 hW.2.2 List.chain'_nil
            (by intro p hp; simp at hp)
        · rfl
        · simp
        · intro e he
          simp at he
      | false =>
        cases hp : env.platform with
        | windows =>
          have hR := readWinEvents_facts (testSizeBytes env.testSizeMB)
            (wOut env).bytes env.cancelAt
            (testSizeBytes env.testSizeMB / bufferSize + 1)
            ((wOut env).chk + 1)
          refine ⟨((prepWriteEvent (testSizeBytes env.testSizeMB) ::
            (wOut env).trace.map Prod.snd) ++ [prepReadEvent]) ++
            (rWinOut env).trace.map Prod.snd,
            finishTail env.cancelAt (rWinOut env).chk
              (speedOf (testSizeBytes env.testSizeMB) env.writeElapsed)
              (speedOf (rWinOut env).bytes env.readElapsed),
            ?_, ?_, ?_, ?_, ?_, ?_⟩
          · rw [runThread_windows env hp hcf hwf hcw]
          · intro e he
            rcases List.mem_append.mp he with he | he
            · rcases List.mem_append.mp he with he | he
              · rcases List.mem_cons.mp he with he | he
                · rw [he]; rfl
                · exact hW.1 e he
              · simp only [List.mem_singleton] at he
                rw [he]; rfl
            · exact hR.1 e he
          · obtain ⟨hc50, hb50⟩ := cons50_facts
              (progressPercents ((rWinOut env).trace.map Prod.snd))
              hR.2.1 hR.2.2
            have hP : progressPercents
                (((prepWriteEvent (testSizeBytes env.testSizeMB) ::
                  (wOut env).trace.map Prod.snd) ++ [prepReadEvent]) ++
                  (rWinOut env).trace.map Prod.snd) =
                0 :: (progressPercents ((wOut env).trace.map Prod.snd) ++
                  (50 :: progressPercents
                    ((rWinOut env).trace.map Prod.snd))) := by
              simp [progressPercents_append, prepWriteEvent, prepReadEvent]
            rw [hP]
            exact chain_percents_glue _ _ hW.2.1 hW.2.2 hc50 hb50
          · exact progressPercents_finishTail _ _ _ _
          · exact finishTail_length _ _ _ _
          · exact finishTail_terminal _ _ _ _
        | darwin =>
          cases hdd : env.ddTimeout with
          | true =>
            refine ⟨((prepWriteEvent (testSizeBytes env.testSizeMB) ::
              (wOut env).trace.map Prod.snd) ++
              [cacheClearEvent, prepReadEvent]) ++
              [Event.progress "使用 dd 命令进行无缓存读取..." 70],
              [Event.error ("测试失败: " ++ "dd 读取超时")],
              ?_, ?_, ?_, ?_, ?_, ?_⟩
            · rw [runThread_darwin_timeout env hp hcf hwf hcw hdd]
            · intro e he
              rcases List.mem_append.mp he with he | he
              · rcases List.mem_append.mp he with he | he
                · rcases List.mem_cons.mp he with he | he
                  · rw [he]; rfl
                  · exact hW.1 e he
                · rcases List.mem_cons.mp he with he | he
                  · rw [he]; rfl
                  · simp only [List.mem_singleton] at he
                    rw [he]; rfl
              · simp only [List.mem_singleton] at he
                rw [he]
                rfl
            · have hP : progressPercents
                  (((prepWriteEvent (testSizeBytes env.testSizeMB) ::
                    (wOut env).trace.map Prod.snd) ++
                    [cacheClearEvent, prepReadEvent]) ++
                    [Event.progress "使用 dd 命令进行无缓存读取..." 70]) =
                  0 :: (progressPercents ((wOut env).trace.map Prod.snd) ++
                    (50 :: [50, 70])) := by
                simp [progressPercents_append, prepWriteEvent, prepReadEvent,
                  cacheClearEvent]
              rw [hP]
              refine chain_percents_glue _ _ hW.2.1 hW.2.2 ?_ ?_
              · exact (cons50_facts [50, 70] (by simp)
                  (by intro p hp; simp at hp; omega)).1
              · exact (cons50_facts [50, 70] (by simp)
                  (by intro p hp; simp at hp; omega)).2
            · rfl
            · simp
            · intro e he
              simp only [List.mem_singleton] at he
              rw [he]
              rfl
          | false =>
            refine ⟨((prepWriteEvent (testSizeBytes env.testSizeMB) ::
              (wOut env).trace.map Prod.snd) ++
              [cacheClearEvent, prepReadEvent]) ++
              [Event.progress "使用 dd 命令进行无缓存读取..." 70,
               Event.progress "读取完成" 100],
              finishTail env.cancelAt ((wOut env).chk + 1)
                (speedOf (testSizeBytes env.testSizeMB) env.writeElapsed)
                (speedOf (wOut env).bytes env.readElapsed),
              ?_, ?_, ?_, ?_, ?_, ?_⟩
            · rw [runThread_darwin_ok env hp hcf hwf hcw hdd]
            · intro e he
              rcases List.mem_append.mp he with he | he
              · rcases List.mem_append.mp he with he | he
                · rcases List.mem_cons.mp he with he | he
                  · rw [he]; rfl
                  · exact hW.1 e he
                · rcases List.mem_cons.mp he with he | he
                  · rw [he]; rfl
                  · simp only [List.mem_singleton] at he
                    rw [he]; rfl
              · rcases List.mem_cons.mp he with he | he
                · rw [he]
                  rfl
                · simp only [List.mem_singleton] at he
                  rw [he]
                  rfl
            · have hP : progressPercents
                  (((prepWriteEvent (testSizeBytes env.testSizeMB) ::
                    (wOut env).trace.map Prod.snd) ++
                    [cacheClearEvent, prepReadEvent]) ++
                    [Event.progress "使用 dd 命令进行无缓存读取..." 70,
                     Event.progress "读取完成" 100]) =
                  0 :: (progressPercents ((wOut env).trace.map Prod.snd) ++
                    (50 :: [50, 70, 100])) := by
                simp [progressPercents_append, prepWriteEvent, prepReadEvent,
                  cacheClearEvent]
              rw [hP]
              refine chain_percents_glue _ _ hW.2.1 hW.2.2 ?_ ?_
              · exact (cons50_facts [50, 70, 100] (by simp)
                  (by intro p hp; simp at hp; omega)).1
              · exact (cons50_facts [50, 70, 100] (by simp)
                  (by intro p hp; simp at hp; omega)).2
            · exact progressPercents_finishTail _ _ _ _
            · exact finishTail_length _ _ _ _
            · exact finishTail_terminal _ _ _ _
        | other =>
          have hR := readStdEvents_facts (testSizeBytes env.testSizeMB)
            (wOut env).bytes env.cancelAt
            ((wOut env).bytes / bufferSize + 2) ((wOut env).chk + 1)
          refine ⟨((prepWriteEvent (testSizeBytes env.testSizeMB) ::
            (wOut env).trace.map Prod.snd) ++ [prepReadEvent]) ++
            (rStdOut env).trace.map Prod.snd,
            finishTail env.cancelAt (rStdOut env).chk
              (speedOf (testSizeBytes env.testSizeMB) env.writeElapsed)
              (rStdOut env).speed,
            ?_, ?_, ?_, ?_, ?_, ?_⟩
          · rw [runThread_other env hp hcf hwf hcw]
          · intro e he
            rcases List.mem_append.mp he with he | he
            · rcases List.mem_append.mp he with he | he
              · rcases List.mem_cons.mp he with he | he
                · rw [he]; rfl
                · exact hW.1 e he
              · simp only [List.mem_singleton] at he
                rw [he]; rfl
            · rw [rStdOut_trace] at he
              exact hR.1 e he
          · obtain ⟨hc50, hb50⟩ := cons50_facts
              (progressPercents
                ((readStandardLoop ((wOut env).bytes / bufferSize + 2)
                  (testSizeBytes env.testSizeMB) (wOut env).bytes
                  env.cancelAt ((wOut env).chk + 1) 0).trace.map Prod.snd))
              hR.2.1 hR.2.2
            have hP : progressPercents
                (((prepWriteEvent (testSizeBytes env.testSizeMB) ::
                  (wOut env).trace.map Prod.snd) ++ [prepReadEvent]) ++
                  (rStdOut env).trace.map Prod.snd) =
                0 :: (progressPercents ((wOut env).trace.map Prod.snd) ++
                  (50 :: progressPercents
                    ((readStandardLoop ((wOut env).bytes / bufferSize + 2)
                      (testSizeBytes env.testSizeMB) (wOut env).bytes
                      env.cancelAt ((wOut env).chk + 1) 0).trace.map
                      Prod.snd))) := by
              rw [rStdOut_trace]
              simp [progressPercents_append, prepWriteEvent, prepReadEvent]
            rw [hP]
            exact chain_percents_glue _ _ hW.2.1 hW.2.2 hc50 hb50
          · exact progressPercents_finishTail _ _ _ _
          · exact finishTail_length _ _ _ _
          · exact finishTail_terminal _ _ _ _

/-! ### Auxiliary facts for the individual claims -/

lemma writeLoop_failed_none (ts : ℕ) (ca : Option ℕ) :
    ∀ fuel iter chk bw,
      (writeLoop fuel ts ca none iter chk bw).failed = false := by
  intro fuel
  induction fuel with
  | zero => intro iter chk bw; rfl
  | succ fuel ih =>
    intro iter chk bw
    by_cases h1 : bw < ts
    · by_cases h2 : isCancelled ca chk = true
      · conv_lhs => rw [writeLoop]
        simp [h1, h2]
      · have hunf : (writeLoop (fuel + 1) ts ca none iter chk bw).failed =
            (writeLoop fuel ts ca none (iter + 1) (chk + 1)
              (bw + min (ts - bw) bufferSize)).failed := by
          conv_lhs => rw [writeLoop]
          simp [h1, h2]
        rw [hunf]
        exact ih (iter + 1) (chk + 1) (bw + min (ts - bw) bufferSize)
    · conv_lhs => rw [writeLoop]
      simp [h1]

lemma writeEvents_percent_le (ts : ℕ) (ca fa : Option ℕ)
    (fuel iter chk : ℕ) (s : String) (p : ℕ)
    (h : Event.progress s p ∈
      (writeLoop fuel ts ca fa iter chk 0).trace.map Prod.snd) :
    p ≤ 50 := by
  obtain ⟨x, hx, hxe⟩ := List.mem_map.mp h
  have hspec := (writeLoop_trace_spec ts ca fa fuel iter chk 0).1 x hx
  rw [hspec.1] at hxe
  have hp : x.1 * 50 / ts = p := (Event.progress.injEq _ _ _ _).mp hxe |>.2
  rw [← hp]
  exact mul50_div_le hspec.2.2

lemma guardTime_pos {t : ℚ} (h : 0 ≤ t) : 0 < guardTime t := by
  unfold guardTime
  split
  · norm_num
  · exact lt_of_le_of_ne h (by tauto)

lemma guardTime_ne_zero {t : ℚ} (h : 0 ≤ t) : guardTime t ≠ 0 :=
  ne_of_gt (guardTime_pos h)

lemma speedOf_pos {n : ℕ} (hn : 0 < n) {t : ℚ} (ht : 0 ≤ t) :
    0 < speedOf n t := by
  unfold speedOf
  apply div_pos
  · apply div_pos
    · apply div_pos
      · exact_mod_cast hn
      · norm_num
    · norm_num
  · exact guardTime_pos ht

lemma testSizeBytes_pos {mb : ℕ} (h : 0 < mb) : 0 < testSizeBytes mb := by
  unfold testSizeBytes
  positivity

lemma fuel2_suffices (n : ℕ) : n ≤ (n / bufferSize + 2) * bufferSize := by
  rw [bufferSize_eq]
  omega

lemma finishTail_of_not {ca : Option ℕ} {chk : ℕ} (w r : ℚ)
    (h : isCancelled ca chk = false) :
    finishTail ca chk w r = [Event.finished w r] := by
  unfold finishTail
  rw [h]
  simp

lemma isWarning_progress_prefix (s t : String) (p : ℕ)
    (hs : 2 ≤ s.data.length) (hne : s.data.take 2 ≠ ['警', '告']) :
    isWarning (Event.progress (s ++ t) p) = false := by
  unfold isWarning
  rw [decide_eq_false_iff_not]
  intro hcontra
  apply hne
  rw [← hcontra, String.data_append, List.take_append_of_le_length hs]

lemma isWarning_writeStatus (p q : ℕ) :
    isWarning (Event.progress (writeStatus p) q) = false := by
  unfold writeStatus
  rw [String.append_assoc]
  exact isWarning_progress_prefix "写入中... " _ q (by decide) (by decide)

lemma isWarning_prepWrite (ts : ℕ) : isWarning (prepWriteEvent ts) = false := by
  unfold prepWriteEvent
  rw [String.append_assoc]
  exact isWarning_progress_prefix "正在准备写入测试 (" _ 0 (by decide)
    (by decide)

lemma writeLoop_trace_dvd (ts : ℕ) (ca fa : Option ℕ) (hts : MiB ∣ ts) :
    ∀ fuel iter chk bw, MiB ∣ bw →
      ∀ x ∈ (writeLoop fuel ts ca fa iter chk bw).trace, MiB ∣ x.1 := by
  intro fuel
  induction fuel with
  | zero => intro iter chk bw _ x hx; simp [writeLoop] at hx
  | succ fuel ih =>
    intro iter chk bw hbw x hx
    by_cases h1 : bw < ts
    · by_cases h2 : isCancelled ca chk = true
      · rw [writeLoop] at hx; simp [h1, h2] at hx
      · by_cases h3 : fa = some iter
        · rw [writeLoop] at hx; simp [h1, h2, h3] at hx
        · have hnext : MiB ∣ bw + min (ts - bw) bufferSize := by
            have hsub : MiB ∣ ts - bw := Nat.dvd_sub' hts hbw
            have hbuf : MiB ∣ bufferSize := ⟨4, by rw [bufferSize]; ring⟩
            rcases Nat.le_total (ts - bw) bufferSize with hc | hc
            · rw [min_eq_left hc]; exact Nat.dvd_add hbw hsub
            · rw [min_eq_right hc]; exact Nat.dvd_add hbw hbuf
          have hunf : (writeLoop (fuel + 1) ts ca fa iter chk bw).trace =
              (bw + min (ts - bw) bufferSize,
               Event.progress
                 (writeStatus ((bw + min (ts - bw) bufferSize) * 50 / ts))
                 ((bw + min (ts - bw) bufferSize) * 50 / ts)) ::
                (writeLoop fuel ts ca fa (iter + 1) (chk + 1)
                  (bw + min (ts - bw) bufferSize)).trace := by
            conv_lhs => rw [writeLoop]
            simp [h1, h2, h3]
          rw [hunf] at hx
          rcases List.mem_cons.mp hx with hx | hx
          · rw [hx]; exact hnext
          · exact ih (iter + 1) (chk + 1) _ hnext x hx
    · rw [writeLoop] at hx; simp [h1] at hx

lemma readWindowsLoop_trace_dvd (ts : ℕ) (ca : Option ℕ) (hts : MiB ∣ ts) :
    ∀ fuel chk tr, MiB ∣ tr →
      ∀ x ∈ (readWindowsLoop fuel ts ts ca chk tr).trace, MiB ∣ x.1 := by
  intro fuel
  induction fuel with
  | zero => intro chk tr _ x hx; simp [readWindowsLoop] at hx
  | succ fuel ih =>
    intro chk tr htr x hx
    by_cases h1 : tr < ts
    · by_cases h2 : isCancelled ca chk = true
      · rw [readWindowsLoop] at hx; simp [h1, h2] at hx
      · have hB := bufferSize_pos
        have hmm : min (min bufferSize (ts - tr)) (ts - tr) =
            min bufferSize (ts - tr) := by omega
        have h3 : ¬ min bufferSize (ts - tr) = 0 := by omega
        have hnext : MiB ∣ tr + min bufferSize (ts - tr) := by
          have hsub : MiB ∣ ts - tr := Nat.dvd_sub' hts htr
          have hbuf : MiB ∣ bufferSize := ⟨4, by rw [bufferSize]; ring⟩
          rcases Nat.le_total bufferSize (ts - tr) with hc | hc
          · rw [min_eq_left hc]; exact Nat.dvd_add htr hbuf
          · rw [min_eq_right hc]; exact Nat.dvd_add htr hsub
        have hunf : (readWindowsLoop (fuel + 1) ts ts ca chk tr).trace =
            (tr + min bufferSize (ts - tr),
             Event.progress
               (readStatus (50 + (tr + min bufferSize (ts - tr)) * 50 / ts))
               (50 + (tr + min bufferSize (ts - tr)) * 50 / ts)) ::
              (readWindowsLoop fuel ts ts ca (chk + 1)
                (tr + min bufferSize (ts - tr))).trace := by
          conv_lhs => rw [readWindowsLoop]
          rw [if_pos h1, if_neg h2]
          simp only [hmm]
          rw [if_neg h3]
        rw [hunf] at hx
        rcases List.mem_cons.mp hx with hx | hx
        · rw [hx]; exact hnext
        · exact ih (chk + 1) _ hnext x hx
    · rw [readWindowsLoop] at hx; simp [h1] at hx

/-! ### Claim theorems -/

/-- C2: For every run and every exit path (successful completion,
cancellation, or failure by exception), after the run ends the temporary
file created in the target directory no longer exists there.  Every branch
of `run` reaches `_cleanup`, which removes the file when it exists
(removal itself succeeding, as the model assumes). -/
theorem temp_file_never_outlives (env : Env) :
    (runThread env).tempExists = false := by
  cases hcf : env.createFails with
  | true => simp [runThread_createFails env hcf]
  | false =>
    cases hwf : (wOut env).failed with
    | true => simp [runThread_writeErr env hcf hwf]
    | false =>
      cases hcw : isCancelled env.cancelAt (wOut env).chk with
      | true => simp [runThread_cancelWrite env hcf hwf hcw]
      | false =>
        cases hp : env.platform with
        | windows => simp [runThread_windows env hp hcf hwf hcw]
        | darwin =>
          cases hdd : env.ddTimeout with
          | true => simp [runThread_darwin_timeout env hp hcf hwf hcw hdd]
          | false => simp [runThread_darwin_ok env hp hcf hwf hcw hdd]
        | other => simp [runThread_other env hp hcf hwf hcw]

/-- Witness for C2 at a concrete fault-free 1 MB run. -/
theorem temp_file_never_outlives_witness :
    (runThread envNormal).tempExists = false :=
  temp_file_never_outlives envNormal

/-- C6 counterexample to strict increase: in the fault-free 1 MB fallback
run the emitted percents are `[0, 50, 50, 100]` — the write loop's final
event and the read-preparation event both carry percent 50, so the
sequence of progress percents is NOT strictly increasing. -/
theorem strict_increase_cex :
    progressPercents (runThread envNormal).events = [0, 50, 50, 100] ∧
    ¬ List.Chain' (· < ·) ([0, 50, 50, 100] : List ℕ) := by
  constructor
  · decide
  · simp [List.chain'_cons]

/-- C6 (amended): in every run the emitted progress percents form a
NON-DECREASING sequence (0→50 during write, 50→100 during read; equal
adjacent percents do occur), AT MOST one terminal event is delivered
(none at all on cancellation), and no event of any kind follows the
terminal event. -/
theorem progress_monotone_single_terminal (env : Env) :
    List.Chain' (· ≤ ·) (progressPercents (runThread env).events) ∧
    ((runThread env).events.filter isTerminalEv).length ≤ 1 ∧
    ∀ e ∈ (runThread env).events.dropLast, isTerminalEv e = false := by
  obtain ⟨init, tail, hev, hinit, hchain, hpt, hlen, hterm⟩ :=
    runThread_decomp env
  rw [hev]
  refine ⟨?_, ?_, ?_⟩
  · rw [progressPercents_append, hpt, List.append_nil]
    exact hchain
  · rw [List.filter_append]
    have h1 : init.filter isTerminalEv = [] :=
      List.filter_eq_nil_iff.mpr fun a ha => by rw [hinit a ha]; simp
    rw [h1, List.nil_append]
    exact le_trans (List.length_filter_le _ _) hlen
  · intro e he
    cases tail with
    | nil =>
      rw [List.append_nil] at he
      exact hinit e ((List.dropLast_sublist _).subset he)
    | cons t ts' =>
      have hts' : ts' = [] := by
        simp only [List.length_cons] at hlen
        exact List.eq_nil_of_length_eq_zero (by omega)
      subst hts'
      rw [List.dropLast_concat] at he
      exact hinit e he

/-- Witness for C6 at a concrete fault-free 1 MB run. -/
theorem progress_monotone_single_terminal_witness :
    List.Chain' (· ≤ ·) (progressPercents (runThread envNormal).events) ∧
    ((runThread envNormal).events.filter isTerminalEv).length ≤ 1 ∧
    ∀ e ∈ (runThread envNormal).events.dropLast, isTerminalEv e = false :=
  progress_monotone_single_terminal envNormal

/-- C1 counterexample: in a run cancelled before the first flag check
(`cancelAt = some 0`, the cancellation is observed at the first write-loop
iteration), the temporary file is deleted and no `TestResult` is emitted —
but no `TestError` or any other terminal event is emitted either: the
filter of terminal events is empty, refuting "emits a TestError (or a
designated cancellation outcome) as its terminal event". -/
theorem cancel_claim_cex :
    envCancelImmediate.cancelAt = some 0 ∧
    (runThread envCancelImmediate).events.filter isTerminalEv = [] ∧
    (runThread envCancelImmediate).tempExists = false := by
  decide

/-- C1 (amended): when cancellation is observed, the run deletes the
temporary file and never emits a TestResult, but it emits NO terminal event
at all (the thread returns silently).  Formally, for a fault-free run:
(a) if the flag is set from the start, no `finished` event is emitted, and
(b) whenever no `finished` event is emitted, no terminal event of any kind
is emitted and the temporary file is gone. -/
theorem cancel_silent_cleanup (env : Env)
    (hcf : env.createFails = false) (hwfa : env.writeFailAt = none)
    (hdd : env.ddTimeout = false) :
    (env.cancelAt = some 0 →
      ∀ w r : ℚ, Event.finished w r ∉ (runThread env).events) ∧
    ((∀ w r : ℚ, Event.finished w r ∉ (runThread env).events) →
      (runThread env).events.filter isTerminalEv = [] ∧
      (runThread env).tempExists = false) := by
  have hwf : (wOut env).failed = false := by
    unfold wOut
    rw [hwfa]
    exact writeLoop_failed_none _ _ _ _ _ _
  have hW := writeEvents_facts (testSizeBytes env.testSizeMB) env.cancelAt
    env.writeFailAt (testSizeBytes env.testSizeMB / bufferSize + 1) 0 0
  constructor
  · intro hca w r hmem
    have hcw : isCancelled env.cancelAt (wOut env).chk = true := by
      rw [hca]
      simp [isCancelled]
    rw [runThread_cancelWrite env hcf hwf hcw] at hmem
    rcases List.mem_cons.mp hmem with hmem | hmem
    · exact absurd hmem.symm (by simp [prepWriteEvent])
    · have := hW.1 _ hmem
      simp [isTerminalEv] at this
  · intro hnf
    cases hcw : isCancelled env.cancelAt (wOut env).chk with
    | true =>
      rw [runThread_cancelWrite env hcf hwf hcw]
      refine ⟨?_, rfl⟩
      refine List.filter_eq_nil_iff.mpr fun a ha => ?_
      rcases List.mem_cons.mp ha with ha | ha
      · rw [ha, prepWriteEvent]
        simp
      · rw [hW.1 a ha]
        simp
    | false =>
      cases hp : env.platform with
      | windows =>
        rw [runThread_windows env hp hcf hwf hcw] at hnf ⊢
        cases hcr : isCancelled env.cancelAt (rWinOut env).chk with
        | false =>
          exfalso
          apply hnf (speedOf (testSizeBytes env.testSizeMB) env.writeElapsed)
            (speedOf (rWinOut env).bytes env.readElapsed)
          apply List.mem_append_right
          rw [finishTail_of_not _ _ hcr]
          exact List.mem_singleton_self _
        | true =>
          have hR := readWinEvents_facts (testSizeBytes env.testSizeMB)
            (wOut env).bytes env.cancelAt
            (testSizeBytes env.testSizeMB / bufferSize + 1)
            ((wOut env).chk + 1)
          refine ⟨?_, rfl⟩
          refine List.filter_eq_nil_iff.mpr fun a ha => ?_
          simp only [finishTail, hcr, if_true, List.append_nil] at ha
          rcases List.mem_append.mp ha with ha | ha
          · rcases List.mem_append.mp ha with ha | ha
            · rcases List.mem_cons.mp ha with ha | ha
              · rw [ha, prepWriteEvent]; simp
              · rw [hW.1 a ha]; simp
            · simp only [List.mem_singleton] at ha
              rw [ha, prepReadEvent]; simp
          · rw [hR.1 a ha]; simp
      | darwin =>
        rw [runThread_darwin_ok env hp hcf hwf hcw hdd] at hnf ⊢
        cases hcr : isCancelled env.cancelAt ((wOut env).chk + 1) with
        | false =>
          exfalso
          apply hnf (speedOf (testSizeBytes env.testSizeMB) env.writeElapsed)
            (speedOf (wOut env).bytes env.readElapsed)
          apply List.mem_append_right
          rw [finishTail_of_not _ _ hcr]
          exact List.mem_singleton_self _
        | true =>
          refine ⟨?_, rfl⟩
          refine List.filter_eq_nil_iff.mpr fun a ha => ?_
          simp only [finishTail, hcr, if_true, List.append_nil] at ha
          rcases List.mem_append.mp ha with ha | ha
          · rcases List.mem_append.mp ha with ha | ha
            · rcases List.mem_cons.mp ha with ha | ha
              · rw [ha, prepWriteEvent]; simp
              · rw [hW.1 a ha]; simp
            · rcases List.mem_cons.mp ha with ha | ha
              · rw [ha, cacheClearEvent]; simp
              · simp only [List.mem_singleton] at ha
                rw [ha, prepReadEvent]; simp
          · rcases List.mem_cons.mp ha with ha | ha
            · rw [ha]; simp
            · simp only [List.mem_singleton] at ha
              rw [ha]; simp
      | other =>
        rw [runThread_other env hp hcf hwf hcw] at hnf ⊢
        cases hcr : isCancelled env.cancelAt (rStdOut env).chk with
        | false =>
          exfalso
          apply hnf (speedOf (testSizeBytes env.testSizeMB) env.writeElapsed)
            (rStdOut env).speed
          apply List.mem_append_right
          rw [finishTail_of_not _ _ hcr]
          exact List.mem_singleton_self _
        | true =>
          have hR := readStdEvents_facts (testSizeBytes env.testSizeMB)
            (wOut env).bytes env.cancelAt
            ((wOut env).bytes / bufferSize + 2) ((wOut env).chk + 1)
          refine ⟨?_, rfl⟩
          refine List.filter_eq_nil_iff.mpr fun a ha => ?_
          simp only [finishTail, hcr, if_true, List.append_nil] at ha
          rcases List.mem_append.mp ha with ha | ha
          · rcases List.mem_append.mp ha with ha | ha
            · rcases List.mem_cons.mp ha with ha | ha
              · rw [ha, prepWriteEvent]; simp
              · rw [hW.1 a ha]; simp
            · simp only [List.mem_singleton] at ha
              rw [ha, prepReadEvent]; simp
          · rw [rStdOut_trace] at ha
            rw [hR.1 a ha]; simp

/-- Witness for C1 at the concrete immediately-cancelled 1 MB run. -/
theorem cancel_silent_cleanup_witness :
    (runThread envCancelImmediate).events.filter isTerminalEv = [] ∧
    (runThread envCancelImmediate).tempExists = false :=
  (cancel_silent_cleanup envCancelImmediate rfl rfl rfl).2 (by
    have hev : (runThread envCancelImmediate).events =
        [prepWriteEvent (testSizeBytes 1)] := by decide
    intro w r hmem
    rw [hev] at hmem
    simp [prepWriteEvent] at hmem)

/-- C8 counterexample: in a 1 MB macOS run whose cancellation arrives while
the dd subprocess runs (the flag is false at the pre-dd check, index 1, and
true at the post-dd check, index 2), the dd completion event is still
emitted — the subprocess ran to completion and was not killed — and the
cancellation merely suppresses the final TestResult. -/
theorem dd_runs_to_completion_cex :
    isCancelled envDdCancel.cancelAt 1 = false ∧
    isCancelled envDdCancel.cancelAt 2 = true ∧
    Event.progress "读取完成" 100 ∈ (runThread envDdCancel).events ∧
    (runThread envDdCancel).events.filter isTerminalEv = [] := by
  decide

/-- C8 (amended): `cancel()` only sets a flag that is read between phases;
the dd subprocess is never terminated or killed.  Once the dd read starts
(its start event at percent 70 appears), its completion event at percent
100 also appears, regardless of when cancellation arrives; a cancellation
arriving during the subprocess only suppresses the final TestResult
afterwards. -/
theorem dd_not_killed (env : Env) (hp : env.platform = Platform.darwin)
    (hcf : env.createFails = false) (hdd : env.ddTimeout = false)
    (h70 : Event.progress "使用 dd 命令进行无缓存读取..." 70 ∈
      (runThread env).events) :
    Event.progress "读取完成" 100 ∈ (runThread env).events := by
  cases hwf : (wOut env).failed with
  | true =>
    exfalso
    rw [runThread_writeErr env hcf hwf] at h70
    rcases List.mem_append.mp h70 with h | h
    · rcases List.mem_cons.mp h with h | h
      · exact absurd h (by simp [prepWriteEvent])
      · have hle := writeEvents_percent_le (testSizeBytes env.testSizeMB)
          env.cancelAt env.writeFailAt
          (testSizeBytes env.testSizeMB / bufferSize + 1) 0 0 _ _ h
        omega
    · simp only [List.mem_singleton] at h
      exact absurd h (by simp)
  | false =>
    cases hcw : isCancelled env.cancelAt (wOut env).chk with
    | true =>
      exfalso
      rw [runThread_cancelWrite env hcf hwf hcw] at h70
      rcases List.mem_cons.mp h70 with h | h
      · exact absurd h (by simp [prepWriteEvent])
      · have hle := writeEvents_percent_le (testSizeBytes env.testSizeMB)
          env.cancelAt env.writeFailAt
          (testSizeBytes env.testSizeMB / bufferSize + 1) 0 0 _ _ h
        omega
    | false =>
      rw [runThread_darwin_ok env hp hcf hwf hcw hdd]
      apply List.mem_append_left
      apply List.mem_append_right
      simp

/-- Witness for C8 at the concrete mid-dd-cancelled 1 MB macOS run. -/
theorem dd_not_killed_witness :
    Event.progress "读取完成" 100 ∈ (runThread envDdCancel).events :=
  dd_not_killed envDdCancel rfl rfl rfl (by decide)

/-- C3 counterexample: the macOS dd strategy does not emit its progress
events with the `50 + floor(bytes_read/test_size*50)` formula.  For a
100 MiB file, its first progress event is emitted at percent 70 when only
1 byte (the `F_NOCACHE` probe read) has been read, while the formula
would give `50 + 1*50/(100 MiB) = 50`. -/
theorem dd_read_formula_cex :
    (readMacosDd (100 * MiB) false 1).2 =
      [(1, Event.progress "使用 dd 命令进行无缓存读取..." 70),
       (1 + 100 * MiB, Event.progress "读取完成" 100)] ∧
    (70 : ℕ) ≠ 50 + 1 * 50 / (100 * MiB) := by
  constructor
  · decide
  · decide

/-- C3 (amended): the standard and Windows read strategies emit every
progress event with percent `50 + floor(bytes_read/test_size*50)` (with
`bytes_read` the bytes read when the event is emitted) and their returned
speed divides the bytes their loop actually counted by the guarded elapsed
time; the macOS dd strategy instead emits two fixed events at percents 70
and 100 and computes its speed from the file size. -/
theorem read_strategy_formula :
    (∀ ts fileSize : ℕ, ∀ ca : Option ℕ, ∀ fuel chk br : ℕ,
      ∀ x ∈ (readStandardLoop fuel ts fileSize ca chk br).trace,
        x.2 = Event.progress (readStatus (50 + x.1 * 50 / ts))
          (50 + x.1 * 50 / ts)) ∧
    (∀ ts fileSize : ℕ, ∀ ca : Option ℕ, ∀ fuel chk tr : ℕ,
      ∀ x ∈ (readWindowsLoop fuel ts fileSize ca chk tr).trace,
        x.2 = Event.progress (readStatus (50 + x.1 * 50 / ts))
          (50 + x.1 * 50 / ts)) ∧
    (∀ env : Env, (rStdOut env).speed =
      speedOf (rStdOut env).bytes env.readElapsed) ∧
    (∀ fileSize : ℕ, ∀ e : ℚ,
      (readMacosDd fileSize false e).1 = Except.ok (speedOf fileSize e) ∧
      (readMacosDd fileSize false e).2.map Prod.snd =
        [Event.progress "使用 dd 命令进行无缓存读取..." 70,
         Event.progress "读取完成" 100]) := by
  refine ⟨?_, ?_, ?_, ?_⟩
  · intro ts fileSize ca fuel chk br x hx
    exact ((readStandardLoop_trace_spec ts fileSize ca fuel chk br).1 x hx).1
  · intro ts fileSize ca fuel chk tr x hx
    exact ((readWindowsLoop_trace_spec ts fileSize ca fuel chk tr).1 x hx).1
  · intro env
    rw [rStdOut_eq]
  · intro fileSize e
    rw [readMacosDd_ok]
    exact ⟨rfl, rfl⟩

/-- Witness for C3: the dd conjunct applied at a concrete 1 MB file, and
the standard-loop formula applied at the concrete first chunk event of a
1 MB fallback read. -/
theorem read_strategy_formula_witness :
    ((readMacosDd (testSizeBytes 1) false 1).1 =
      Except.ok (speedOf (testSizeBytes 1) 1) ∧
      (readMacosDd (testSizeBytes 1) false 1).2.map Prod.snd =
        [Event.progress "使用 dd 命令进行无缓存读取..." 70,
         Event.progress "读取完成" 100]) ∧
    (testSizeBytes 1,
      Event.progress (readStatus 100) 100).2 =
      Event.progress
        (readStatus (50 + (testSizeBytes 1,
          Event.progress (readStatus 100) 100).1 * 50 / testSizeBytes 1))
        (50 + (testSizeBytes 1,
          Event.progress (readStatus 100) 100).1 * 50 / testSizeBytes 1) :=
  ⟨read_strategy_formula.2.2.2 (testSizeBytes 1) 1,
   read_strategy_formula.1 (testSizeBytes 1) (testSizeBytes 1) none
     (testSizeBytes 1 / bufferSize + 2) 2 0 _ (by decide)⟩

/-- C4 counterexample: after the first chunk of the 100 MiB write the
emitted percent is 2 but the status string is `写入中... 4%` — it embeds
`percent*2`, not the same percent the event carries. -/
theorem write_status_percent_cex :
    (writeLoop (testSizeBytes 100 / bufferSize + 1) (testSizeBytes 100)
      none none 0 0 0).trace.head? =
      some (4 * MiB, Event.progress "写入中... 4%" 2) ∧
    "写入中... 4%" ≠ "写入中... " ++ toString (2 : ℕ) ++ "%" := by
  constructor
  · decide
  · decide

/-- C4 (amended): after each write-phase chunk the engine emits a progress
event whose percent equals `floor(bytes_written/test_size*50)` and whose
status string embeds TWICE that percent (the 0-100-scale figure
`percent*2`); for `test_size = 100 MiB` and `buffer = 4 MiB` the write
loop executes exactly 25 full chunks whose percents pass through
2, 4, …, 50, and the fallback read loop's percents pass through
52, …, 100. -/
theorem write_progress_amended :
    (∀ ts : ℕ, ∀ ca fa : Option ℕ, ∀ fuel iter chk : ℕ,
      ∀ x ∈ (writeLoop fuel ts ca fa iter chk 0).trace,
        x.2 = Event.progress (writeStatus (x.1 * 50 / ts))
          (x.1 * 50 / ts)) ∧
    (∀ p : ℕ, writeStatus p = "写入中... " ++ toString (p * 2) ++ "%") ∧
    (writeLoop (testSizeBytes 100 / bufferSize + 1) (testSizeBytes 100)
      none none 0 0 0).trace.length = 25 ∧
    progressPercents (runThread envScenario).events =
      [0] ++ (List.range 25).map (fun k => 2 * (k + 1)) ++ [50] ++
        (List.range 25).map (fun k => 50 + 2 * (k + 1)) := by
  refine ⟨?_, fun _ => rfl, by decide, by decide⟩
  intro ts ca fa fuel iter chk x hx
  exact ((writeLoop_trace_spec ts ca fa fuel iter chk 0).1 x hx).1

/-- Witness for C4: the general percent/status shape applied at the
concrete first chunk event of the 100 MiB write. -/
theorem write_progress_amended_witness :
    (4 * MiB, Event.progress "写入中... 4%" 2).2 =
      Event.progress
        (writeStatus ((4 * MiB, Event.progress "写入中... 4%" 2).1 * 50 /
          testSizeBytes 100))
        ((4 * MiB, Event.progress "写入中... 4%" 2).1 * 50 /
          testSizeBytes 100) :=
  write_progress_amended.1 (testSizeBytes 100) none none
    (testSizeBytes 100 / bufferSize + 1) 0 0 _ (by decide)

/-- C5 counterexample: the elapsed-time guard is not a clamp to a minimum
epsilon of 1 ms.  It replaces only an exactly-zero elapsed time: for the
nonzero sub-millisecond elapsed time `1/2000 s` the divisor stays
`1/2000 s`, strictly below the claimed 1 ms minimum. -/
theorem epsilon_clamp_cex :
    guardTime (1 / 2000) = 1 / 2000 ∧
    ¬ ((1 : ℚ) / 1000 ≤ guardTime (1 / 2000)) := by
  constructor
  · unfold guardTime
    norm_num
  · unfold guardTime
    norm_num

/-- C5 (amended): for every run with `test_size_bytes > 0` that completes
successfully, the reported write and read speeds are strictly positive
(and, as exact rationals, finite); the divisor is never zero because an
exactly-zero elapsed time is replaced by 1 ms (0.001 s) — but a nonzero
elapsed time below 1 ms is used as is. -/
theorem speeds_positive (env : Env) (hmb : 0 < env.testSizeMB)
    (hca : env.cancelAt = none) (hcf : env.createFails = false)
    (hwfa : env.writeFailAt = none) (hdd : env.ddTimeout = false)
    (hwe : 0 ≤ env.writeElapsed) (hre : 0 ≤ env.readElapsed) :
    ∃ w r : ℚ, Event.finished w r ∈ (runThread env).events ∧
      0 < w ∧ 0 < r ∧ guardTime env.writeElapsed ≠ 0 ∧
      guardTime env.readElapsed ≠ 0 := by
  have hts : 0 < testSizeBytes env.testSizeMB := testSizeBytes_pos hmb
  have hwEq : wOut env =
      writeLoop (testSizeBytes env.testSizeMB / bufferSize + 1)
        (testSizeBytes env.testSizeMB) none none 0 0 0 := by
    unfold wOut
    rw [hca, hwfa]
  have hcomp := writeLoop_complete (testSizeBytes env.testSizeMB)
    (testSizeBytes env.testSizeMB / bufferSize + 1) 0 0 0
    (Nat.zero_le _) (by simpa using fuel_suffices (testSizeBytes env.testSizeMB))
  have hwb : (wOut env).bytes = testSizeBytes env.testSizeMB := by
    rw [hwEq]; exact hcomp.1
  have hwf : (wOut env).failed = false := by
    rw [hwEq]; exact hcomp.2
  have hcw : isCancelled env.cancelAt (wOut env).chk = false := by
    rw [hca]; rfl
  have hwpos : 0 < speedOf (testSizeBytes env.testSizeMB) env.writeElapsed :=
    speedOf_pos hts hwe
  cases hp : env.platform with
  | windows =>
    have hrEq : rWinOut env =
        readWindowsLoop (testSizeBytes env.testSizeMB / bufferSize + 1)
          (testSizeBytes env.testSizeMB) (testSizeBytes env.testSizeMB)
          none ((wOut env).chk + 1) 0 := by
      unfold rWinOut
      rw [hca, hwb]
    have hrb : (rWinOut env).bytes = testSizeBytes env.testSizeMB := by
      rw [hrEq]
      exact readWindowsLoop_complete (testSizeBytes env.testSizeMB)
        (testSizeBytes env.testSizeMB / bufferSize + 1) ((wOut env).chk + 1)
        0 (Nat.zero_le _)
        (by simpa using fuel_suffices (testSizeBytes env.testSizeMB))
    refine ⟨speedOf (testSizeBytes env.testSizeMB) env.writeElapsed,
      speedOf (rWinOut env).bytes env.readElapsed, ?_, hwpos, ?_,
      guardTime_ne_zero hwe, guardTime_ne_zero hre⟩
    · rw [runThread_windows env hp hcf hwf hcw]
      apply List.mem_append_right
      rw [finishTail_of_not _ _ (by rw [hca]; rfl)]
      exact List.mem_singleton_self _
    · rw [hrb]
      exact speedOf_pos hts hre
  | darwin =>
    refine ⟨speedOf (testSizeBytes env.testSizeMB) env.writeElapsed,
      speedOf (wOut env).bytes env.readElapsed, ?_, hwpos, ?_,
      guardTime_ne_zero hwe, guardTime_ne_zero hre⟩
    · rw [runThread_darwin_ok env hp hcf hwf hcw hdd]
      apply List.mem_append_right
      rw [finishTail_of_not _ _ (by rw [hca]; rfl)]
      exact List.mem_singleton_self _
    · rw [hwb]
      exact speedOf_pos hts hre
  | other =>
    have hrb : (rStdOut env).bytes = testSizeBytes env.testSizeMB := by
      rw [rStdOut_eq]
      show (readStandardLoop ((wOut env).bytes / bufferSize + 2)
        (testSizeBytes env.testSizeMB) (wOut env).bytes env.cancelAt
        ((wOut env).chk + 1) 0).bytes = _
      rw [hca, hwb]
      exact readStandardLoop_complete (testSizeBytes env.testSizeMB)
        (testSizeBytes env.testSizeMB)
        (testSizeBytes env.testSizeMB / bufferSize + 2) ((wOut env).chk + 1)
        0 (Nat.zero_le _)
        (by simpa using fuel2_suffices (testSizeBytes env.testSizeMB))
    have hrs : (rStdOut env).speed =
        speedOf (rStdOut env).bytes env.readElapsed := by
      rw [rStdOut_eq]
    refine ⟨speedOf (testSizeBytes env.testSizeMB) env.writeElapsed,
      (rStdOut env).speed, ?_, hwpos, ?_,
      guardTime_ne_zero hwe, guardTime_ne_zero hre⟩
    · rw [runThread_other env hp hcf hwf hcw]
      apply List.mem_append_right
      rw [finishTail_of_not _ _ (by rw [hca]; rfl)]
      exact List.mem_singleton_self _
    · rw [hrs, hrb]
      exact speedOf_pos hts hre

/-- Witness for C5 at the concrete fault-free 1 MB fallback run. -/
theorem speeds_positive_witness :
    ∃ w r : ℚ, Event.finished w r ∈ (runThread envNormal).events ∧
      0 < w ∧ 0 < r ∧ guardTime envNormal.writeElapsed ≠ 0 ∧
      guardTime envNormal.readElapsed ≠ 0 :=
  speeds_positive envNormal (by decide) rfl rfl rfl rfl (by decide)
    (by decide)

/-- C7: for every run that completes normally (no cancellation, no error),
the write phase writes exactly `test_size_bytes` bytes — the final partial
chunk included — and the read phase reads exactly the bytes written. -/
theorem round_trip_bytes (env : Env) (hca : env.cancelAt = none)
    (hcf : env.createFails = false) (hwfa : env.writeFailAt = none)
    (hdd : env.ddTimeout = false) :
    (runThread env).bytesWritten = testSizeBytes env.testSizeMB ∧
    (runThread env).bytesRead = (runThread env).bytesWritten := by
  have hwEq : wOut env =
      writeLoop (testSizeBytes env.testSizeMB / bufferSize + 1)
        (testSizeBytes env.testSizeMB) none none 0 0 0 := by
    unfold wOut
    rw [hca, hwfa]
  have hcomp := writeLoop_complete (testSizeBytes env.testSizeMB)
    (testSizeBytes env.testSizeMB / bufferSize + 1) 0 0 0 (Nat.zero_le _)
    (by simpa using fuel_suffices (testSizeBytes env.testSizeMB))
  have hwb : (wOut env).bytes = testSizeBytes env.testSizeMB := by
    rw [hwEq]; exact hcomp.1
  have hwf : (wOut env).failed = false := by
    rw [hwEq]; exact hcomp.2
  have hcw : isCancelled env.cancelAt (wOut env).chk = false := by
    rw [hca]; rfl
  cases hp : env.platform with
  | windows =>
    have hrb : (rWinOut env).bytes = testSizeBytes env.testSizeMB := by
      unfold rWinOut
      rw [hca, hwb]
      exact readWindowsLoop_complete (testSizeBytes env.testSizeMB)
        (testSizeBytes env.testSizeMB / bufferSize + 1) ((wOut env).chk + 1)
        0 (Nat.zero_le _)
        (by simpa using fuel_suffices (testSizeBytes env.testSizeMB))
    rw [runThread_windows env hp hcf hwf hcw]
    exact ⟨hwb, hrb.trans hwb.symm⟩
  | darwin =>
    rw [runThread_darwin_ok env hp hcf hwf hcw hdd]
    exact ⟨hwb, rfl⟩
  | other =>
    have hrb : (rStdOut env).bytes = testSizeBytes env.testSizeMB := by
      rw [rStdOut_eq]
      show (readStandardLoop ((wOut env).bytes / bufferSize + 2)
        (testSizeBytes env.testSizeMB) (wOut env).bytes env.cancelAt
        ((wOut env).chk + 1) 0).bytes = _
      rw [hca, hwb]
      exact readStandardLoop_complete (testSizeBytes env.testSizeMB)
        (testSizeBytes env.testSizeMB)
        (testSizeBytes env.testSizeMB / bufferSize + 2) ((wOut env).chk + 1)
        0 (Nat.zero_le _)
        (by simpa using fuel2_suffices (testSizeBytes env.testSizeMB))
    rw [runThread_other env hp hcf hwf hcw]
    exact ⟨hwb, hrb.trans hwb.symm⟩

/-- Witness for C7 at the concrete fault-free 1 MB fallback run. -/
theorem round_trip_bytes_witness :
    (runThread envNormal).bytesWritten = testSizeBytes envNormal.testSizeMB ∧
    (runThread envNormal).bytesRead = (runThread envNormal).bytesWritten :=
  round_trip_bytes envNormal rfl rfl rfl rfl

lemma isWarning_finishTail (ca : Option ℕ) (chk : ℕ) (w r : ℚ) :
    ∀ e ∈ finishTail ca chk w r, isWarning e = false := by
  unfold finishTail
  split
  · intro e he; simp at he
  · intro e he
    simp only [List.mem_singleton] at he
    rw [he]; rfl

lemma writeEvents_noWarning (ts : ℕ) (ca fa : Option ℕ)
    (fuel iter chk : ℕ) :
    ∀ e ∈ (writeLoop fuel ts ca fa iter chk 0).trace.map Prod.snd,
      isWarning e = false := by
  intro e he
  obtain ⟨x, hx, rfl⟩ := List.mem_map.mp he
  rw [((writeLoop_trace_spec ts ca fa fuel iter chk 0).1 x hx).1]
  exact isWarning_writeStatus _ _

/-- C9 counterexample: in a macOS run whose privileged `purge` invocation
fails (no root, `sudo -n purge` refused), the run still completes with a
TestResult but NO warning-level progress status is ever emitted — the
failure is only printed to the console — refuting "a warning-level
progress status is emitted to inform the caller". -/
theorem purge_warning_cex :
    envPurgeFail.purgeOk = false ∧
    (runThread envPurgeFail).events.filter isWarning = [] ∧
    (runThread envPurgeFail).events.filter isFinished ≠ [] ∧
    ((runThread envPurgeFail).events.filter isTerminalEv).length = 1 := by
  decide

/-- C9 (amended): failures of the platform cache-control primitives never
abort the run.  A failing privileged cache-purge command leaves the run to
its normal terminal outcome but emits NO warning-level progress status (the
failure is only printed to the console); only a failing per-descriptor
no-cache directive, inside `_read_standard`'s reopened file on macOS, emits
a warning-level progress status, also without aborting. -/
theorem cache_bypass_nonfatal :
    (∀ env : Env, env.platform = Platform.darwin → env.purgeOk = false →
      env.cancelAt = none → env.createFails = false →
      env.writeFailAt = none → env.ddTimeout = false →
      (∃ w r : ℚ, Event.finished w r ∈ (runThread env).events) ∧
      (runThread env).events.filter isWarning = []) ∧
    (∀ ts fileSize chk : ℕ, ∀ ca : Option ℕ, ∀ e : ℚ, ∀ msg : String,
      (0, Event.progress ("警告: 缓存设置失败 - " ++ msg) 50) ∈
        (readStandard ts fileSize true (some msg) ca chk e).trace) := by
  constructor
  · intro env hp hpo hca hcf hwfa hdd
    have hwEq : wOut env =
        writeLoop (testSizeBytes env.testSizeMB / bufferSize + 1)
          (testSizeBytes env.testSizeMB) none none 0 0 0 := by
      unfold wOut
      rw [hca, hwfa]
    have hcomp := writeLoop_complete (testSizeBytes env.testSizeMB)
      (testSizeBytes env.testSizeMB / bufferSize + 1) 0 0 0 (Nat.zero_le _)
      (by simpa using fuel_suffices (testSizeBytes env.testSizeMB))
    have hwf : (wOut env).failed = false := by
      rw [hwEq]; exact hcomp.2
    have hcw : isCancelled env.cancelAt (wOut env).chk = false := by
      rw [hca]; rfl
    constructor
    · refine ⟨speedOf (testSizeBytes env.testSizeMB) env.writeElapsed,
        speedOf (wOut env).bytes env.readElapsed, ?_⟩
      rw [runThread_darwin_ok env hp hcf hwf hcw hdd]
      apply List.mem_append_right
      rw [finishTail_of_not _ _ (by rw [hca]; rfl)]
      exact List.mem_singleton_self _
    · rw [runThread_darwin_ok env hp hcf hwf hcw hdd]
      refine List.filter_eq_nil_iff.mpr fun a ha => ?_
      rcases List.mem_append.mp ha with ha | ha
      · rcases List.mem_append.mp ha with ha | ha
        · rcases List.mem_append.mp ha with ha | ha
          · rcases List.mem_cons.mp ha with ha | ha
            · rw [ha, isWarning_prepWrite]
              simp
            · rw [writeEvents_noWarning _ _ _ _ _ _ a ha]
              simp
          · rcases List.mem_cons.mp ha with ha | ha
            · rw [ha]; simp [cacheClearEvent, isWarning]
            · simp only [List.mem_singleton] at ha
              rw [ha]; simp [prepReadEvent, isWarning]
        · rcases List.mem_cons.mp ha with ha | ha
          · rw [ha]; simp [isWarning]
          · simp only [List.mem_singleton] at ha
            rw [ha]; simp [isWarning]
      · rw [isWarning_finishTail _ _ _ _ a ha]
        simp
  · intro ts fileSize chk ca e msg
    unfold readStandard
    apply List.mem_append_left
    simp

/-- Witness for C9 at the concrete purge-failing 1 MB macOS run. -/
theorem cache_bypass_nonfatal_witness :
    (∃ w r : ℚ, Event.finished w r ∈ (runThread envPurgeFail).events) ∧
    (runThread envPurgeFail).events.filter isWarning = [] :=
  cache_bypass_nonfatal.1 envPurgeFail rfl rfl rfl rfl rfl rfl

/-- C10: `test_size_bytes = test_size_mb * 1 MiB`, the buffer is fixed at
4 MiB, and every chunk length `min(remaining, buffer_size)` of the write
loop and of the Windows unbuffered read loop — equivalently every byte
counter those loops pass through — is a multiple of 4 KiB, satisfying the
sector-alignment requirement of `FILE_FLAG_NO_BUFFERING`. -/
theorem chunk_alignment :
    (∀ mb : ℕ, testSizeBytes mb = mb * MiB) ∧
    bufferSize = 4 * MiB ∧
    (∀ ts bw : ℕ, MiB ∣ ts → MiB ∣ bw → 4096 ∣ min (ts - bw) bufferSize) ∧
    (∀ ts tr : ℕ, MiB ∣ ts → MiB ∣ tr → 4096 ∣ min bufferSize (ts - tr)) ∧
    (∀ ts : ℕ, ∀ ca fa : Option ℕ, ∀ fuel iter chk : ℕ, MiB ∣ ts →
      ∀ x ∈ (writeLoop fuel ts ca fa iter chk 0).trace, 4096 ∣ x.1) ∧
    (∀ ts : ℕ, ∀ ca : Option ℕ, ∀ fuel chk : ℕ, MiB ∣ ts →
      ∀ x ∈ (readWindowsLoop fuel ts ts ca chk 0).trace, 4096 ∣ x.1) := by
  have h4 : (4096 : ℕ) ∣ MiB := by decide
  refine ⟨?_, rfl, ?_, ?_, ?_, ?_⟩
  · intro mb
    unfold testSizeBytes MiB
    ring
  · intro ts bw hts hbw
    have hsub : MiB ∣ ts - bw := Nat.dvd_sub' hts hbw
    have hbuf : MiB ∣ bufferSize := ⟨4, by rw [bufferSize]; ring⟩
    rcases Nat.le_total (ts - bw) bufferSize with hc | hc
    · rw [min_eq_left hc]; exact dvd_trans h4 hsub
    · rw [min_eq_right hc]; exact dvd_trans h4 hbuf
  · intro ts tr hts htr
    have hsub : MiB ∣ ts - tr := Nat.dvd_sub' hts htr
    have hbuf : MiB ∣ bufferSize := ⟨4, by rw [bufferSize]; ring⟩
    rcases Nat.le_total bufferSize (ts - tr) with hc | hc
    · rw [min_eq_left hc]; exact dvd_trans h4 hbuf
    · rw [min_eq_right hc]; exact dvd_trans h4 hsub
  · intro ts ca fa fuel iter chk hts x hx
    exact dvd_trans h4
      (writeLoop_trace_dvd ts ca fa hts fuel iter chk 0 (dvd_zero MiB) x hx)
  · intro ts ca fuel chk hts x hx
    exact dvd_trans h4
      (readWindowsLoop_trace_dvd ts ca hts fuel chk 0 (dvd_zero MiB) x hx)

/-- Witness for C10 at concrete sizes. -/
theorem chunk_alignment_witness :
    testSizeBytes 3 = 3 * MiB ∧
    4096 ∣ min (testSizeBytes 1 - 0) bufferSize :=
  ⟨chunk_alignment.1 3,
   chunk_alignment.2.2.1 (testSizeBytes 1) 0 (by decide) (by decide)⟩

end SpeedTester
